import Mathlib

/-!
Verification development for the agentpy output module (`agentpy/output.py`).

The module is embedded shallowly:

* A pandas `DataFrame` becomes the structure `DF`: a list of index-level
  names (a level name may be `none`, like an unnamed `RangeIndex`), a list
  of column names, and rows, each row being a pair of an index tuple and a
  data tuple.
* Cell values become the inductive `Val` (integers, strings, and the
  missing-value marker `vNA` standing for `NaN`/`None` holes).
* A `DataDict` (the `AttrDict` subclass holding output sections) becomes an
  ordered association list from string keys to `Entry` values.  The module
  only ever reads or writes containers nested one level deep (`parameters`
  with `fixed`/`varied`, `variables` with one table per object type), so
  nested containers hold `SubEntry` values, which cannot nest further.
* Fallible Python code (raised exceptions) becomes `Except String`; the
  string holds the error message.  In-place mutation (`_combine_pars`
  writes the fixed parameters into the `varied` table) is made explicit:
  the mutating functions return the updated container alongside their
  result.
* The CSV/JSON codecs themselves are external collaborators (the spec
  scopes them out); serialization of a single cell value is therefore
  modelled as the identity, while the structural part the module owns
  (demoting index levels to columns on save, promoting the recognized
  index columns back on load, filename conventions) is modelled from the
  source.
-/

/-- A cell value: integer, string, or missing-value marker (`NaN`). -/
inductive Val where
  | vInt : Int → Val
  | vStr : String → Val
  | vNA : Val
deriving DecidableEq, Repr

/-- A pandas DataFrame: named index levels (a level can be unnamed, like a
fresh `RangeIndex`), named columns, and rows of (index tuple, data tuple). -/
structure DF where
  indexNames : List (Option String)
  columns : List String
  rows : List (List Val × List Val)
deriving DecidableEq, Repr

/-- Well-formed frame: columns are distinct and every row matches the
header widths. -/
def DF.WF (df : DF) : Prop :=
  df.columns.Nodup ∧
    ∀ r ∈ df.rows, r.1.length = df.indexNames.length ∧
      r.2.length = df.columns.length

instance (df : DF) : Decidable df.WF := by
  unfold DF.WF; infer_instance

/-- Value of column `c` in a data row `r` laid out along `cols`
(missing column or short row reads as `NaN`, as a reindex hole would). -/
def rowVal (cols : List String) (r : List Val) (c : String) : Val :=
  ((cols.zip r).lookup c).getD .vNA

/-- Re-lay-out a data row from layout `cols` to layout `target`
(pandas alignment: absent columns are filled with `NaN`). -/
def alignRow (cols : List String) (target : List String) (r : List Val) :
    List Val :=
  target.map (fun c => rowVal cols r c)

/-- Union of several column lists, keeping first-occurrence order
(how `pd.concat` lays out non-shared columns with `sort=False`). -/
def unionCols (css : List (List String)) : List String :=
  css.foldl (fun acc cs => acc ++ cs.filter (fun c => !acc.contains c)) []

/-- One full column of a frame. -/
def DF.getCol (df : DF) (c : String) : List Val :=
  df.rows.map (fun r => rowVal df.columns r.2 c)

/-- The values of index level `i` down the rows of a frame. -/
def DF.levelVals (df : DF) (i : Nat) : List Val :=
  df.rows.map (fun r => r.1.getD i .vNA)

/-- The `KeyError` message of a column projection, naming the missing
columns. -/
def keyErrMsg (missing : List String) : String :=
  "KeyError: " ++ String.intercalate ", " missing ++ " not in index"

/-- `df[ks]`: column projection; raises a `KeyError` naming the missing
columns when any requested column is absent (pandas `__getitem__` with a
list of labels). -/
def selectCols (df : DF) (ks : List String) : Except String DF :=
  let missing := ks.filter (fun k => !df.columns.contains k)
  if missing.isEmpty then
    .ok { indexNames := df.indexNames, columns := ks,
          rows := df.rows.map (fun r => (r.1, alignRow df.columns ks r.2)) }
  else
    .error (keyErrMsg missing)

/-- `df[k] = v` with a scalar: broadcast `v` down an existing column, or
append a new constant column. -/
def setCol (df : DF) (k : String) (v : Val) : DF :=
  if df.columns.contains k then
    { df with rows := df.rows.map (fun r =>
        (r.1, df.columns.map (fun c =>
          if c = k then v else rowVal df.columns r.2 c))) }
  else
    { df with
        columns := df.columns ++ [k]
        rows := df.rows.map (fun r => (r.1, r.2 ++ [v])) }

/-- `pd.concat(dfs)` along rows: column union with `NaN` fill; index level
names survive when all inputs agree, otherwise become unnamed.  Empty input
raises, and inputs whose index level counts disagree are not modelled
(pandas would build an object-tuple index there). -/
def concatRows (dfs : List DF) : Except String DF :=
  match dfs with
  | [] => .error "ValueError: No objects to concatenate"
  | d :: rest =>
    if rest.all (fun x => x.indexNames.length = d.indexNames.length) then
      .ok { indexNames :=
              if rest.all (fun x => x.indexNames = d.indexNames) then
                d.indexNames
              else d.indexNames.map (fun _ => none),
            columns := unionCols (dfs.map (·.columns)),
            rows := (dfs.map (fun x => x.rows.map (fun r =>
              (r.1, alignRow x.columns (unionCols (dfs.map (·.columns)))
                r.2)))).flatten }
    else .error "concat of frames with differing index depths"

/-- `pd.concat(dict_of_frames)`: stack with a new outermost index level
holding each frame's dictionary key. -/
def concatDict (d : List (String × DF)) : Except String DF :=
  match d with
  | [] => .error "ValueError: No objects to concatenate"
  | (_, d0) :: rest =>
    if rest.all (fun x => x.2.indexNames.length = d0.indexNames.length) then
      .ok { indexNames :=
              none :: (if rest.all (fun x => x.2.indexNames = d0.indexNames)
                then d0.indexNames
                else d0.indexNames.map (fun _ => none)),
            columns := unionCols (d.map (·.2.columns)),
            rows := (d.map (fun kv => kv.2.rows.map (fun r =>
              (Val.vStr kv.1 :: r.1,
               alignRow kv.2.columns (unionCols (d.map (·.2.columns)))
                 r.2)))).flatten }
    else .error "concat of frames with differing index depths"

/-- `df.index.set_names(n, level=0)`. -/
def setIndexNameL0 (df : DF) (n : String) : DF :=
  { df with indexNames :=
      match df.indexNames with
      | [] => []
      | _ :: rest => some n :: rest }

/-- `df.reset_index(drop=True)`: replace the index by an unnamed
zero-based range. -/
def resetIndexDrop (df : DF) : DF :=
  { indexNames := [none], columns := df.columns,
    rows := df.rows.enum.map (fun p => ([Val.vInt p.1], p.2.2)) }

/-- `df.index.name = n` (used on a frame with a single index level). -/
def setSingleIndexName (df : DF) (n : String) : DF :=
  { df with indexNames := [some n] }

/-- The name `reset_index` gives a demoted index level. -/
def levelColName (single : Bool) (k : Nat) (o : Option String) : String :=
  match o with
  | some s => s
  | none => if single then "index" else "level_" ++ toString k

/-- `df.reset_index()`: demote every index level to a leading data column
and install a fresh unnamed range index. -/
def resetIndex (df : DF) : DF :=
  let single := df.indexNames.length = 1
  { indexNames := [none],
    columns := (df.indexNames.enum.map
        (fun p => levelColName single p.1 p.2)) ++ df.columns,
    rows := df.rows.enum.map
      (fun p => ([Val.vInt p.1], p.2.1 ++ p.2.2)) }

/-- `df.set_index(ks)`: promote the named columns (in the given order) to
index levels; raises a `KeyError` when a name is missing. -/
def setIndexCols (df : DF) (ks : List String) : Except String DF :=
  let missing := ks.filter (fun k => !df.columns.contains k)
  if missing.isEmpty then
    let keep := df.columns.filter (fun c => !ks.contains c)
    .ok { indexNames := ks.map some, columns := keep,
          rows := df.rows.map (fun r =>
            (alignRow df.columns ks r.2, alignRow df.columns keep r.2)) }
  else .error ("KeyError: " ++ String.intercalate ", " missing)

/-- `dfp.reindex(target, level=lvl)`: broadcast a single-level frame along
the `lvl` level of a multi-level target index; each target row receives
the data of the source row whose index equals its `lvl` component (or
`NaN`s when no source row matches).  Raises when the target has no such
level. -/
def reindexLevel (dfp : DF) (targetNames : List (Option String))
    (targetIndex : List (List Val)) (lvl : String) : Except String DF :=
  match targetNames.indexOf? (some lvl) with
  | none => .error ("KeyError: Level " ++ lvl ++ " not found")
  | some li =>
    .ok { indexNames := targetNames, columns := dfp.columns,
          rows := targetIndex.map (fun (tix : List Val) =>
            match dfp.rows.find?
                (fun (r : List Val × List Val) =>
                  decide (r.1.getD 0 .vNA = tix.getD li .vNA)) with
            | some r => (tix, r.2)
            | none => (tix, dfp.columns.map (fun _ => Val.vNA))) }

/-- `pd.concat([l, r], axis=1)`: horizontal paste when both indexes agree;
an outer join on unique index values otherwise (pandas raises on
duplicate labels in that case). -/
def concatCols (l r : DF) : Except String DF :=
  if l.indexNames.length ≠ r.indexNames.length then
    .error "concat axis 1 of frames with differing index depths"
  else if l.indexNames = r.indexNames ∧
      l.rows.map (·.1) = r.rows.map (·.1) then
    .ok { indexNames := l.indexNames, columns := l.columns ++ r.columns,
          rows := (l.rows.zip r.rows).map
            (fun p => (p.1.1, p.1.2 ++ p.2.2)) }
  else if (l.rows.map (·.1)).Nodup ∧ (r.rows.map (·.1)).Nodup then
    .ok { indexNames :=
            if l.indexNames = r.indexNames then l.indexNames
            else l.indexNames.map (fun _ => none),
          columns := l.columns ++ r.columns,
          rows :=
            (l.rows.map (fun lr =>
              match r.rows.find? (fun rr => decide (rr.1 = lr.1)) with
              | some rr => (lr.1, lr.2 ++ rr.2)
              | none => (lr.1, lr.2 ++ r.columns.map (fun _ => Val.vNA)))) ++
            ((r.rows.filter (fun rr =>
                !(l.rows.map (·.1)).contains rr.1)).map (fun rr =>
              (rr.1, l.columns.map (fun _ => Val.vNA) ++ rr.2))) }
  else .error "ValueError: cannot reindex on an axis with duplicate labels"

/-- A value held one level down inside a nested `DataDict` (the module
only ever builds containers nested one level deep: `parameters`
holds `fixed`/`varied`, `variables` holds one table per object type, and
`_load` fills nested sections with tables, mappings, or `None`). -/
inductive SubEntry where
  | table : DF → SubEntry
  | dict : List (String × Val) → SubEntry
  | null : SubEntry
deriving DecidableEq, Repr

/-- A top-level value of a `DataDict`: a DataFrame, a plain mapping, a
nested `DataDict`, or Python `None` (what `_load` stores for a failed
file). -/
inductive Entry where
  | table : DF → Entry
  | dict : List (String × Val) → Entry
  | sub : List (String × SubEntry) → Entry
  | null : Entry
deriving DecidableEq, Repr

/-- The `DataDict` container: an ordered mapping from string keys to
values (`AttrDict`: attribute access and subscript access read the same
storage, so one association list models both). -/
abbrev DataDict := List (String × Entry)

/-- `self.keys()`. -/
def keysOf (dd : DataDict) : List String := dd.map Prod.fst

/-- `self[k] = v`: overwrite in place when the key exists (keeping its
position, as a dict does), otherwise append. -/
def setKeyA {α : Type} (l : List (String × α)) (k : String) (v : α) :
    List (String × α) :=
  if l.any (fun kv => kv.1 = k) then
    l.map (fun kv => if kv.1 = k then (k, v) else kv)
  else l ++ [(k, v)]

/-- The index columns `load_file` recognizes and promotes back to index
levels (`i_cols` in the source). -/
def iCols : List String :=
  ["sample_id", "run_id", "scenario", "env_key", "agent_id", "obj_id", "t"]

/-- Python truthiness of an optional key list (`if param_keys:`):
`None` and the empty list are falsy. -/
def truthy : Option (List String) → Bool
  | some (_ :: _) => true
  | _ => false

/-- `_combine_pars` (output.py lines 126-150): build the run-parameter
table.  A nested container starts from `varied` and broadcasts each
`fixed` item as a constant column — writing into the `varied` table in
place, which is why the updated container is returned alongside the
result.  A plain mapping becomes a one-row table, a table passes through,
anything else raises the `AgentpyError`.  The result is replicated
`log['iterations']` times, reindexed with a fresh zero-based range named
`run_id`. -/
def parsIterN : Option Val → DF → Except String DF
  | some (.vInt n), dfp0 =>
    (concatRows (List.replicate n.toNat dfp0)).map
      (fun df => setSingleIndexName (resetIndexDrop df) "run_id")
  | _, _ => .error "KeyError: iterations"

/-- Dispatch of `parsIter` on the `log` entry (`self.log` must be a
mapping for `self.log['iterations']` to be read). -/
def parsIterLog : Option Entry → DF → Except String DF
  | some (.dict lg), dfp0 => parsIterN (lg.lookup "iterations") dfp0
  | _, _ => .error "AttributeError: log"

/-- `pd.concat([dfp0] * self.log['iterations'])` followed by
`reset_index(drop=True)` and `index.name = 'run_id'` (output.py lines
145-148). -/
def parsIter (dd : DataDict) (dfp0 : DF) : Except String DF :=
  parsIterLog (dd.lookup "log") dfp0

/-- The nested-container branch of `_combine_pars`: start from `varied`,
broadcast each `fixed` item as a constant column — in place — and
replicate. -/
def combineParsNested (ps : List (String × SubEntry)) :
    Option SubEntry → Option SubEntry → DataDict →
      Except String DF × DataDict
  | some (.table varied), some (.dict fixed), dd =>
    let dfp0 := fixed.foldl (fun df kv => setCol df kv.1 kv.2) varied
    let dd2 := setKeyA dd "parameters"
      (.sub (setKeyA ps "varied" (.table dfp0)))
    (parsIter dd2 dfp0, dd2)
  | _, _, dd => (.error "AttributeError: fixed or varied", dd)

/-- Dispatch of `_combine_pars` on the shape of the parameters entry. -/
def combineParsCore : Option Entry → DataDict → Except String DF × DataDict
  | some (.sub ps), dd =>
    combineParsNested ps (ps.lookup "varied") (ps.lookup "fixed") dd
  | some (.dict d), dd =>
    (parsIter dd { indexNames := [none]
                   columns := d.map Prod.fst
                   rows := if d.isEmpty then []
                           else [([Val.vInt 0], d.map Prod.snd)] }, dd)
  | some (.table t), dd => (parsIter dd t, dd)
  | some _, dd =>
    (.error "Parameters must be of type dict, DataDict, or pandas.DataFrame",
     dd)
  | none, dd => (.error "AttributeError: parameters", dd)

def combinePars (dd : DataDict) : Except String DF × DataDict :=
  combineParsCore (dd.lookup "parameters") dd

/-- All nested entries must be DataFrames for `_combine_vars` to filter on
`v.columns` and concatenate them. -/
def extractTables (d : List (String × SubEntry)) :
    Except String (List (String × DF)) :=
  if d.all (fun kv => match kv.2 with | .table _ => true | _ => false) then
    .ok (d.filterMap (fun kv =>
      match kv.2 with
      | .table t => some (kv.1, t)
      | _ => none))
  else .error "AttributeError: nested variables entry is not a DataFrame"

/-- `_combine_vars` (output.py lines 93-124).  A bare table is returned
as-is; a one-entry container collapses to its single table; otherwise the
entries are filtered (tables having none of `var_keys` are dropped, then
`obj_types` keeps listed keys), concatenated under a new outermost
`obj_type` index level, and finally projected to `var_keys` when that
list is truthy. -/
def combineVarsSub (d : List (String × SubEntry))
    (objTypes varKeys : Option (List String)) : Except String DF :=
  if d.length = 1 then
    match d with
    | [(_, .table t)] => .ok t
    | _ => .error "single variables entry is not a DataFrame"
  else
    (extractTables d).bind (fun td =>
      let d1 := match varKeys with
        | none => td
        | some ks =>
          td.filter (fun kv => ks.any (fun x => kv.2.columns.contains x))
      let d2 := match objTypes with
        | none => d1
        | some ts => d1.filter (fun kv => ts.contains kv.1)
      (concatDict d2).bind (fun c =>
        let c2 := setIndexNameL0 c "obj_type"
        if truthy varKeys then selectCols c2 (varKeys.getD [])
        else .ok c2))

/-- Dispatch of `_combine_vars` on the shape of the variables entry. -/
def combineVarsEntry : Option Entry →
    Option (List String) → Option (List String) → Except String DF
  | none, _, _ => .error "KeyError: variables"
  | some (.table df), _, _ => .ok df
  | some (.sub d), objTypes, varKeys => combineVarsSub d objTypes varKeys
  | some _, _, _ => .error "TypeError: variables has unsupported type"

def combineVars (dd : DataDict) (objTypes varKeys : Option (List String)) :
    Except String DF :=
  combineVarsEntry (dd.lookup "variables") objTypes varKeys

/-- The keys `arrange` supports (`supported_keys` in the source). -/
def supportedKeys : List String := ["variables", "measures", "parameters"]

/-- The first requested key `arrange` rejects: `true` tags a key missing
from the container, `false` a key outside the supported set. -/
def findBadKey (ddKeys : List String) : List String →
    Option (String × Bool)
  | [] => none
  | k :: rest =>
    if !ddKeys.contains k then some (k, true)
    else if !supportedKeys.contains k then some (k, false)
    else findBadKey ddKeys rest

/-- Message of `KeyError(f"DataDict has no key '{key}'")`. -/
def msgNoKey (k : String) : String := "DataDict has no key " ++ k

/-- Message of the unsupported-key `KeyError`, naming the key and the
supported set. -/
def msgUnsupported (k : String) : String :=
  "DataDict.arrange does not support " ++ k ++ ". Supported keys are: " ++
    String.intercalate ", " supportedKeys

/-- Key preparation of `arrange` (output.py lines 190-201): default to
every present supported section, or validate the explicit request —
failing on the first key that is absent or unsupported. -/
def checkKeys (dd : DataDict) (dataKeys : Option (List String)) :
    Except String (List String) :=
  match dataKeys with
  | none => .ok ((keysOf dd).filter (fun k => supportedKeys.contains k))
  | some ks =>
    match findBadKey (keysOf dd) ks with
    | some (k, true) => .error (msgNoKey k)
    | some (k, false) => .error (msgUnsupported k)
    | none => .ok ks

/-- The 'variables' stage of `arrange` (lines 203-205). -/
def stepVars (dd : DataDict) (keys : List String)
    (objTypes varKeys : Option (List String)) :
    Except String (Option DF) :=
  if keys.contains "variables" then (combineVars dd objTypes varKeys).map some
  else .ok none

/-- The 'measures' stage of `arrange` (lines 207-220): project to
`measure_keys` when truthy; the measures table becomes the working table
when none exists yet, otherwise both tables are reset to plain columns,
stacked (measures rows first), and the variables index restored. -/
def stepMeasuresTable : Option Entry → Option DF →
    Option (List String) → Except String (Option DF)
  | some (.table dfm0), dfv, measureKeys =>
    (if truthy measureKeys then selectCols dfm0 (measureKeys.getD [])
     else .ok dfm0).bind (fun dfm =>
      match dfv with
      | none => .ok (some dfm)
      | some dv =>
        (if dv.indexNames.all (fun o => o.isSome) then
          (.ok (dv.indexNames.filterMap id) : Except String (List String))
        else .error "KeyError: None").bind (fun ikeys =>
          (concatRows [resetIndex dfm, resetIndex dv]).bind (fun c =>
            (setIndexCols c ikeys).map some)))
  | some _, _, _ => .error "TypeError: measures is not a DataFrame"
  | none, _, _ => .error "AttributeError: measures"

def stepMeasures (dd : DataDict) (keys : List String) (dfv : Option DF)
    (measureKeys : Option (List String)) : Except String (Option DF) :=
  if keys.contains "measures" then
    stepMeasuresTable (dd.lookup "measures") dfv measureKeys
  else .ok dfv

/-- The 'parameters' join of `arrange` (lines 222-229): project to
`param_keys` when truthy, then read `dfv.index` — an `AttributeError`
when no working table exists — broadcast over the `run_id` level when the
working index is a MultiIndex, and paste column-wise. -/
def stepParams (dfv : Option DF) (dfp0 : DF)
    (paramKeys : Option (List String)) : Except String DF :=
  (if truthy paramKeys then selectCols dfp0 (paramKeys.getD [])
   else .ok dfp0).bind (fun dfp =>
    match dfv with
    | none => .error "AttributeError: NoneType object has no attribute index"
    | some dv =>
      (if dv.indexNames.length > 1 then
        reindexLevel dfp dv.indexNames (dv.rows.map (·.1)) "run_id"
      else .ok dfp).bind (fun dfp2 => concatCols dv dfp2))

/-- `dfv.query("scenario in @scenarios")`: keep rows whose `scenario`
column (or index level) value is among the given names. -/
def queryScenario (df : DF) (ss : List String) : Except String DF :=
  if df.columns.contains "scenario" then
    .ok { df with rows := df.rows.filter (fun r =>
      ss.any (fun s => decide (rowVal df.columns r.2 "scenario" = .vStr s))) }
  else
    match df.indexNames.indexOf? (some "scenario") with
    | some j =>
      .ok { df with rows := df.rows.filter (fun r =>
        ss.any (fun s => decide (r.1.getD j .vNA = .vStr s))) }
    | none => .error "UndefinedVariableError: scenario"

/-- The closing steps of `arrange` (lines 231-240): scenario filter, then
flatten the index unless `index=True`.  Both steps read attributes of the
working table and raise when it is still `None`. -/
def finishArrange (dfv : Option DF) (scenarios : Option (List String))
    (index : Bool) : Except String (Option DF) :=
  (if truthy scenarios then
    match dfv with
    | none =>
      (.error "AttributeError: NoneType object has no attribute query" :
        Except String (Option DF))
    | some dv => (queryScenario dv (scenarios.getD [])).map some
  else .ok dfv).bind (fun dfv2 =>
    if !index then
      match dfv2 with
      | none =>
        .error "AttributeError: NoneType object has no attribute reset_index"
      | some dv => .ok (some (resetIndex dv))
    else .ok dfv2)

/-- `DataDict.arrange` (output.py lines 152-240), with the in-place
mutation performed by `_combine_pars` made explicit: the call returns the
arranged table (or the raised error) together with the container as it
stands after the call. -/
def arrange (dd : DataDict) (dataKeys varKeys objTypes measureKeys
    paramKeys scenarios : Option (List String) := none)
    (index : Bool := false) : Except String (Option DF) × DataDict :=
  match checkKeys dd dataKeys with
  | .error e => (.error e, dd)
  | .ok keys =>
    match stepVars dd keys objTypes varKeys with
    | .error e => (.error e, dd)
    | .ok dfv1 =>
      match stepMeasures dd keys dfv1 measureKeys with
      | .error e => (.error e, dd)
      | .ok dfv2 =>
        if keys.contains "parameters" then
          match combinePars dd with
          | (.error e, dd2) => (.error e, dd2)
          | (.ok dfp, dd2) =>
            ((stepParams dfv2 dfp paramKeys).bind (fun dfv3 =>
              finishArrange (some dfv3) scenarios index), dd2)
        else (finishArrange dfv2 scenarios index, dd)

/-- Python substring containment `pat in s`. -/
def hasSub (s pat : String) : Bool :=
  (List.range (s.data.length + 1)).any
    (fun i => pat.data.isPrefixOf (s.data.drop i))

/-- The piece of a string after its last occurrence of `sep` (the whole
string when `sep` does not occur): `s.split(sep)[-1]` for a one-character
separator. -/
def lastPiece (sep : Char) (s : String) : String :=
  String.mk ((s.data.reverse.takeWhile (fun c => c ≠ sep)).reverse)

/-- `file.split(".")[-1]`. -/
def extOf (fname : String) : String := lastPiece '.' fname

/-- `file[:-(len(ext) + 1)]`: the filename with `.ext` stripped. -/
def stripExt (fname : String) : String :=
  fname.dropRight ((extOf fname).length + 1)

/-- Remove every (non-overlapping, left-to-right) occurrence of `pat`
from `s`, with fuel for structural recursion: `s.replace(pat, "")`. -/
def removeAllAux (pat : List Char) : Nat → List Char → List Char
  | _, [] => []
  | 0, s => s
  | Nat.succ n, c :: cs =>
    if pat.isPrefixOf (c :: cs) ∧ pat ≠ [] then
      removeAllAux pat n ((c :: cs).drop pat.length)
    else c :: removeAllAux pat n cs

/-- Python `s.replace(pat, "")`. -/
def replaceAll (s pat : String) : String :=
  String.mk (removeAllAux pat.data s.data.length s.data)

/-- A CSV file's tabular content: the header row and the body rows
(`to_csv` writes the index levels as the leading columns). -/
structure Csv where
  header : List String
  body : List (List Val)
deriving DecidableEq, Repr

/-- `df.to_csv(...)`: index levels become leading columns (an unnamed
level writes an empty header cell), then the data columns. -/
def csvWrite (df : DF) : Csv :=
  { header := df.indexNames.map (fun o => o.getD "") ++ df.columns
    body := df.rows.map (fun r => r.1 ++ r.2) }

/-- `pd.read_csv` followed by the index promotion of `load_file`
(output.py lines 316-320): every recognized index column present in the
file, in the fixed `i_cols` order, is promoted back to an index level;
with none present the frame keeps a fresh unnamed range index. -/
def csvRead (c : Csv) : DF :=
  let idx := iCols.filter (fun i => c.header.contains i)
  if idx.isEmpty then
    { indexNames := [none], columns := c.header,
      rows := c.body.enum.map (fun p => ([Val.vInt p.1], p.2)) }
  else
    { indexNames := idx.map some
      columns := c.header.filter (fun h => !idx.contains h)
      rows := c.body.map (fun r =>
        (alignRow c.header idx r,
         alignRow c.header (c.header.filter (fun h => !idx.contains h)) r)) }

/-- What a file on disk decodes to: a table (for a readable `.csv`), a
mapping (for a readable `.json`), or `bad` when reading/decoding raises. -/
inductive FileContent where
  | csvData : Csv → FileContent
  | jsonData : List (String × Val) → FileContent
  | bad : FileContent
deriving DecidableEq, Repr

/-- `load_file` (output.py lines 302-337): decode one file by extension.
`.csv` decodes to a table with the recognized index columns promoted,
`.json` to a mapping; an unsupported extension is reported and yields
`None`, and a raised I/O or decode error is caught, reported, and also
yields `None` (the function falls off the end). -/
def loadFile (fname : String) (c : FileContent) : Option SubEntry :=
  if extOf fname = "csv" then
    match c with
    | .csvData cv => some (.table (csvRead cv))
    | _ => none
  else if extOf fname = "json" then
    match c with
    | .jsonData d => some (.dict d)
    | _ => none
  else none

/-- A loaded value as stored at top level: Python `None` becomes the
`null` entry under the failed file's key. -/
def loadedEntry (fname : String) (c : FileContent) : Entry :=
  match loadFile fname c with
  | some (.table df) => .table df
  | some (.dict d) => .dict d
  | some .null => .null
  | none => .null

/-- A loaded value as stored inside a nested section. -/
def loadedSub (fname : String) (c : FileContent) : SubEntry :=
  (loadFile fname c).getD .null

/-- Store a loaded value into a nested section (`self['variables'][key] =
...` after creating `self['variables'] = DataDict()` when absent). -/
def setNested (dd : DataDict) (outer innerKey : String) (se : SubEntry) :
    DataDict :=
  let dd2 := if (keysOf dd).contains outer then dd
             else dd ++ [(outer, .sub [])]
  dd2.map (fun kv =>
    if kv.1 = outer then
      (outer, match kv.2 with
        | .sub s => Entry.sub (setKeyA s innerKey se)
        | _ => Entry.sub [(innerKey, se)])
    else kv)

/-- The per-file loop of `_load` (output.py lines 352-368): filenames
containing `variables_` fill the nested `variables` section keyed by the
rest of the name, filenames containing `parameters_` likewise fill
`parameters`, and every other file becomes a top-level entry keyed by its
name minus extension.  Every file is processed; a failed decode stores
`None` under the file's key. -/
def loadFiles (files : List (String × FileContent)) : DataDict :=
  files.foldl (fun dd fc =>
    if hasSub fc.1 "variables_" then
      setNested dd "variables"
        (replaceAll (stripExt fc.1) "variables_") (loadedSub fc.1 fc.2)
    else if hasSub fc.1 "parameters_" then
      setNested dd "parameters"
        (replaceAll (stripExt fc.1) "parameters_") (loadedSub fc.1 fc.2)
    else setKeyA dd (stripExt fc.1) (loadedEntry fc.1 fc.2)) []

/-- The file-writing loop of `save` (output.py lines 274-290): top-level
tables become `{key}.csv`, nested containers write each inner table as
`{key}_{k}.csv` and each inner mapping as `{key}_{k}.json`, top-level
mappings become `{key}.json`.  (A `None` entry matches no branch and
writes nothing; inner nested containers do not occur.) -/
def saveEntries (dd : DataDict) : List (String × FileContent) :=
  (dd.map (fun kv =>
    match kv.2 with
    | .table df => [(kv.1 ++ ".csv", FileContent.csvData (csvWrite df))]
    | .dict d => [(kv.1 ++ ".json", FileContent.jsonData d)]
    | .sub s => s.filterMap (fun iv =>
        match iv.2 with
        | .table df =>
          some (kv.1 ++ "_" ++ iv.1 ++ ".csv",
            FileContent.csvData (csvWrite df))
        | .dict d =>
          some (kv.1 ++ "_" ++ iv.1 ++ ".json", FileContent.jsonData d)
        | .null => none)
    | .null => [])).flatten

/-- `int(digits)`: parse a digit string (Python `int` raises on anything
else; an empty string is not a number). -/
def parseNatDigits (cs : List Char) : Option Nat :=
  match cs with
  | [] => none
  | _ =>
    if cs.all (fun c => c.isDigit) then
      some (cs.foldl (fun a c => a * 10 + (c.toNat - 48)) 0)
    else none

/-- `int(s)` for an optionally negated digit string. -/
def parseIntChars : List Char → Option Int
  | '-' :: rest => (parseNatDigits rest).map (fun n => -(n : Int))
  | cs => (parseNatDigits cs).map (fun n => (n : Int))

/-- `int(s.split('_')[-1])`: the trailing underscore-delimited integer of
a directory name. -/
def trailingInt (s : String) : Option Int :=
  parseIntChars (lastPiece '_' s).data

/-- `ids = [int(s.split('_')[-1]) for s in exp_dirs]`: `int` raises on
the first name without an integer tail. -/
def intsOf : List String → Except String (List Int)
  | [] => .ok []
  | s :: rest =>
    match trailingInt s with
    | some i => (intsOf rest).map (fun l => i :: l)
    | none => .error "ValueError: invalid literal for int"

/-- `max(ids)` of a nonempty list. -/
def maxInt : List Int → Int
  | [] => 0
  | x :: xs => xs.foldl max x

/-- `_last_exp_id` applied to the substring matches. -/
def lastExpIdDirs : List String → Except String Int
  | [] => .ok 0
  | d :: ds => (intsOf (d :: ds)).map maxInt

/-- `_last_exp_id` (output.py lines 31-40): scan the directory listing
for names containing `name` as a substring and return the largest
trailing id among them, `0` with no match.  `int` raises when a matching
name has no integer tail. -/
def lastExpId (name : String) (listing : List String) : Except String Int :=
  lastExpIdDirs (listing.filter (fun s => hasSub s name))

/-- `exp_name.replace(" ", "_")`. -/
def underscoreSpaces (s : String) : String :=
  String.mk (s.data.map (fun c => if c = ' ' then '_' else c))

/-- The directory-resolution part of `save` (output.py lines 260-271):
spaces in the experiment name become underscores, a missing id resolves
to one more than the highest existing id, and `makedirs` raises when the
resolved directory already exists.  Returns the created directory name
and the resolved id. -/
def saveDirName (expName : String) (expId : Option Int)
    (listing : List String) : Except String (String × Int) :=
  let nm := underscoreSpaces expName
  (match expId with
   | some i => (.ok i : Except String Int)
   | none => (lastExpId nm listing).map (· + 1)).bind (fun i =>
    if listing.contains (nm ++ "_" ++ toString i) then
      .error "FileExistsError"
    else .ok (nm ++ "_" ++ toString i, i))

/-- Does the container hold a nested `parameters` section?  (`isinstance
(self.parameters, DataDict)` — the one branch of `_combine_pars` that
mutates.) -/
def nestedPars (dd : DataDict) : Bool :=
  match dd.lookup "parameters" with
  | some (.sub _) => true
  | _ => false

/-- Sample 3-row varied-parameter table (column `b`). -/
def variedSample : DF :=
  { indexNames := [none]
    columns := ["b"]
    rows := [([Val.vInt 0], [Val.vInt 10]), ([Val.vInt 1], [Val.vInt 20]),
             ([Val.vInt 2], [Val.vInt 30])] }

/-- Sample container with a nested parameters section (`fixed={'a': 1}`,
3-row `varied`) and a log with 2 iterations. -/
def ddNested : DataDict :=
  [("log", .dict [("name", .vStr "exp"), ("iterations", .vInt 2)]),
   ("parameters", .sub [("fixed", .dict [("a", .vInt 1)]),
                        ("varied", .table variedSample)])]

/-- Sample per-object-type variables table for type `A`. -/
def tableA : DF :=
  { indexNames := [some "obj_id", some "t"]
    columns := ["x"]
    rows := [([Val.vInt 1, Val.vInt 0], [Val.vInt 5]),
             ([Val.vInt 1, Val.vInt 1], [Val.vInt 6])] }

/-- Sample per-object-type variables table for type `B`. -/
def tableB : DF :=
  { indexNames := [some "obj_id", some "t"]
    columns := ["y"]
    rows := [([Val.vInt 2, Val.vInt 0], [Val.vInt 7])] }

/-- Sample per-run measures table. -/
def measuresSample : DF :=
  { indexNames := [some "run_id"]
    columns := ["m"]
    rows := [([Val.vInt 0], [Val.vInt 9])] }

/-- Sample run-produced container: log with one iteration, flat
parameters, one variables table, one measures table. -/
def ddRun : DataDict :=
  [("log", .dict [("name", .vStr "exp"), ("iterations", .vInt 1)]),
   ("parameters", .dict [("a", .vInt 1)]),
   ("variables", .table tableA),
   ("measures", .table measuresSample)]

/-- The nested tables `_combine_vars` keeps when `var_keys` is given:
those holding at least one requested column. -/
def keptFor (td : List (String × DF)) (ks : List String) :
    List (String × DF) :=
  td.filter (fun kv => ks.any (fun x => kv.2.columns.contains x))

/-- The columns of the concatenation of the kept tables. -/
def concatUnionCols (td : List (String × DF)) (ks : List String) :
    List String :=
  unionCols ((keptFor td ks).map (fun kv => kv.2.columns))

/-- Sample two-type variables container for the column-filter claim. -/
def ddV7 : DataDict :=
  [("variables", .sub [("A", .table tableA), ("B", .table tableB)])]

/-- The nested tables of `ddV7`. -/
def tdV7 : List (String × DF) := [("A", tableA), ("B", tableB)]

/-- A run-produced container: log metadata, a flat parameters mapping,
one variables table, one measures table. -/
def runDD (lg pars : List (String × Val)) (vt mt2 : DF) : DataDict :=
  [("log", .dict lg), ("parameters", .dict pars),
   ("variables", .table vt), ("measures", .table mt2)]

theorem lookup_append {α β : Type} [BEq α] (l₁ l₂ : List (α × β)) (a : α) :
    (l₁ ++ l₂).lookup a = ((l₁.lookup a).or (l₂.lookup a)) := by
  induction l₁ with
  | nil => simp [List.lookup]
  | cons p t ih =>
    obtain ⟨k, v⟩ := p
    simp only [List.cons_append, List.lookup_cons]
    cases h : a == k <;> simp [h, ih]

theorem lookup_map_ne {α : Type} (l : List (String × α)) (k0 k : String)
    (v : α) (h : k ≠ k0) :
    (l.map (fun kv => if kv.1 = k0 then (k0, v) else kv)).lookup k =
      l.lookup k := by
  induction l with
  | nil => rfl
  | cons p t ih =>
    obtain ⟨a, b⟩ := p
    by_cases ha : a = k0
    · subst ha
      have : (k == a) = false := by simp [h]
      simp [List.lookup_cons, this, ih]
    · simp only [List.map_cons, if_neg ha, List.lookup_cons]
      cases hk : k == a <;> simp [ih]

theorem lookup_setKeyA_ne {α : Type} (l : List (String × α))
    (k0 k : String) (v : α) (h : k ≠ k0) :
    (setKeyA l k0 v).lookup k = l.lookup k := by
  unfold setKeyA
  by_cases hc : l.any (fun kv => kv.1 = k0)
  · simp only [hc, if_true]
    exact lookup_map_ne l k0 k v h
  · have h2 : ([(k0, v)] : List (String × α)).lookup k = none := by
      have : (k == k0) = false := by simp [h]
      simp [List.lookup, this]
    rw [if_neg hc, lookup_append, h2]
    cases l.lookup k <;> rfl

/-- The state half of `_combine_pars` is the identity unless the
parameters section is a nested container. -/
theorem combinePars_state (dd : DataDict) (h : nestedPars dd = false) :
    (combinePars dd).2 = dd := by
  unfold combinePars
  unfold nestedPars at h
  cases hlp : dd.lookup "parameters" with
  | none => rfl
  | some e =>
    cases e with
    | table df => rfl
    | dict d => rfl
    | sub s => rw [hlp] at h; simp at h
    | null => rfl

/-- `_combine_pars` touches no key other than `parameters`. -/
theorem combinePars_state_other (dd : DataDict) (k : String)
    (h : k ≠ "parameters") :
    ((combinePars dd).2).lookup k = dd.lookup k := by
  unfold combinePars
  cases hlp : dd.lookup "parameters" with
  | none => rfl
  | some e =>
    cases e with
    | table df => rfl
    | dict d => rfl
    | null => rfl
    | sub s =>
      show (combineParsNested s (s.lookup "varied") (s.lookup "fixed")
        dd).2.lookup k = dd.lookup k
      cases hv : s.lookup "varied" with
      | none => rfl
      | some sv =>
        cases sv with
        | table varied =>
          cases hf : s.lookup "fixed" with
          | none => rfl
          | some sf =>
            cases sf with
            | dict fixed => exact lookup_setKeyA_ne dd "parameters" k _ h
            | table t2 => rfl
            | null => rfl
        | dict d2 => rfl
        | null => rfl

/-- C2 counterexample: on a container with a flat parameters mapping
holding `a`, `arrange(data_keys='parameters', param_keys=['a'])` does not
return a table — it raises the `AttributeError` of `dfv.index` with the
working table still `None` (output.py line 227). -/
theorem arrange_parameters_only_fails_concrete :
    (arrange ddRun (some ["parameters"]) none none none (some ["a"])
      none false).1 =
      .error "AttributeError: NoneType object has no attribute index" := by
  rfl

/-- C2 (amended): requesting `data_keys='parameters'` alone never returns
a table: whatever the container and the remaining arguments, `arrange`
raises — the parameters join needs a working table built from variables
or measures first. -/
theorem arrange_parameters_only_always_errors (dd : DataDict)
    (varKeys objTypes measureKeys paramKeys scenarios :
      Option (List String)) (index : Bool) :
    ∃ e, (arrange dd (some ["parameters"]) varKeys objTypes measureKeys
      paramKeys scenarios index).1 = .error e := by
  cases hck : checkKeys dd (some ["parameters"]) with
  | error e => exact ⟨e, by simp [arrange, hck]⟩
  | ok ks =>
    have hks : ks = ["parameters"] := by
      cases hfb : findBadKey (keysOf dd) ["parameters"] with
      | none => simp [checkKeys, hfb] at hck; exact hck.symm
      | some p =>
        obtain ⟨k, b⟩ := p
        cases b <;> simp [checkKeys, hfb] at hck
    subst hks
    have hsv : stepVars dd ["parameters"] objTypes varKeys = .ok none := rfl
    have hsm : stepMeasures dd ["parameters"] none measureKeys =
        .ok none := rfl
    have hc : (["parameters"].contains "parameters") = true := rfl
    rcases hcp : combinePars dd with ⟨r, dd2⟩
    cases r with
    | error e => exact ⟨e, by simp [arrange, hck, hsv, hsm, hc, hcp]⟩
    | ok dfp =>
      have hsp : ∃ e, stepParams (none : Option DF) dfp paramKeys =
          .error e := by
        unfold stepParams
        cases hsel : (if truthy paramKeys then
            selectCols dfp (paramKeys.getD []) else .ok dfp) with
        | error e => exact ⟨e, by simp [hsel, Except.bind]⟩
        | ok d2 =>
          exact ⟨"AttributeError: NoneType object has no attribute index",
            by simp [hsel, Except.bind]⟩
      obtain ⟨e, he⟩ := hsp
      exact ⟨e, by simp [arrange, hck, hsv, hsm, hc, hcp, he, Except.bind]⟩

theorem findBadKey_append_good (ddKeys : List String) (ks1 rest : List String)
    (h : ∀ j ∈ ks1, ddKeys.contains j = true ∧
      supportedKeys.contains j = true) :
    findBadKey ddKeys (ks1 ++ rest) = findBadKey ddKeys rest := by
  induction ks1 with
  | nil => rfl
  | cons k t ih =>
    have hk := h k (by simp)
    simp only [List.cons_append, findBadKey, hk.1, hk.2, Bool.not_true,
      Bool.false_eq_true, if_false]
    exact ih (fun j hj => h j (by simp [hj]))

/-- C4: an explicit `data_keys` request fails fast on the first offending
key: a key outside the container raises a `KeyError` naming it, and a key
inside the container but outside `{variables, measures, parameters}`
raises a `KeyError` naming it and listing the supported set; in both
cases nothing is processed and the container is returned untouched,
whatever the remaining arguments. -/
theorem arrange_bad_key_errors (dd : DataDict) (ks1 ks2 : List String)
    (k : String) (varKeys objTypes measureKeys paramKeys scenarios :
      Option (List String)) (index : Bool)
    (hgood : ∀ j ∈ ks1, (keysOf dd).contains j = true ∧
      supportedKeys.contains j = true) :
    ((keysOf dd).contains k = false →
      arrange dd (some (ks1 ++ k :: ks2)) varKeys objTypes measureKeys
        paramKeys scenarios index = (.error (msgNoKey k), dd)) ∧
    ((keysOf dd).contains k = true → supportedKeys.contains k = false →
      arrange dd (some (ks1 ++ k :: ks2)) varKeys objTypes measureKeys
        paramKeys scenarios index = (.error (msgUnsupported k), dd)) := by
  constructor
  · intro hk
    have hfb : findBadKey (keysOf dd) (ks1 ++ k :: ks2) = some (k, true) := by
      rw [findBadKey_append_good (keysOf dd) ks1 (k :: ks2) hgood]
      simp only [findBadKey, hk, Bool.not_false, if_true]
    have hck : checkKeys dd (some (ks1 ++ k :: ks2)) =
        .error (msgNoKey k) := by simp [checkKeys, hfb]
    simp [arrange, hck]
  · intro hk hs
    have hfb : findBadKey (keysOf dd) (ks1 ++ k :: ks2) =
        some (k, false) := by
      rw [findBadKey_append_good (keysOf dd) ks1 (k :: ks2) hgood]
      simp only [findBadKey, hk, hs, Bool.not_true, Bool.not_false,
        Bool.false_eq_true, if_false, if_true]
    have hck : checkKeys dd (some (ks1 ++ k :: ks2)) =
        .error (msgUnsupported k) := by simp [checkKeys, hfb]
    simp [arrange, hck]

/-- C4 witness: on the sample run container, requesting the absent key
`zzz` raises the no-key error, and requesting the present but unsupported
key `log` raises the unsupported-key error listing the supported set. -/
theorem arrange_bad_key_errors_app :
    arrange ddRun (some ["zzz"]) none none none none none false =
      (.error (msgNoKey "zzz"), ddRun) ∧
    arrange ddRun (some ["log"]) none none none none none false =
      (.error (msgUnsupported "log"), ddRun) := by
  constructor
  · exact (arrange_bad_key_errors ddRun [] [] "zzz" none none none none
      none false (by simp)).1 (by rfl)
  · exact (arrange_bad_key_errors ddRun [] [] "log" none none none none
      none false (by simp)).2 (by rfl) (by rfl)

/-- C6: variable combination is the identity on a bare table and on a
one-entry container — the table is returned as-is, with no `obj_type`
level added, whatever filters are passed. -/
theorem combineVars_single_identity (dd1 dd2 : DataDict)
    (o1 v1 o2 v2 : Option (List String)) (t1 t2 : DF) (k : String)
    (h1 : dd1.lookup "variables" = some (.table t1))
    (h2 : dd2.lookup "variables" = some (.sub [(k, .table t2)])) :
    combineVars dd1 o1 v1 = .ok t1 ∧ combineVars dd2 o2 v2 = .ok t2 := by
  constructor
  · unfold combineVars
    rw [h1]
    rfl
  · unfold combineVars
    rw [h2]
    rfl

/-- C6 witness: a container holding `tableA` bare and one holding it as
the only nested entry both collapse to `tableA`. -/
theorem combineVars_single_identity_app :
    combineVars [("variables", .table tableA)] none none = .ok tableA ∧
    combineVars [("variables", .sub [("A", .table tableA)])] none
      (some ["zz"]) = .ok tableA := by
  exact combineVars_single_identity [("variables", .table tableA)]
    [("variables", .sub [("A", .table tableA)])] none none none
    (some ["zz"]) tableA tableA "A" (by rfl) (by rfl)

/-- C9 counterexample: `arrange` is not read-only.  On the sample
container with a nested parameters section, one call leaves the container
changed — `_combine_pars` has written the fixed parameter `a` into the
`varied` table in place. -/
theorem arrange_mutates_varied_concrete :
    (arrange ddNested (some ["parameters"]) none none none none none
      false).2 ≠ ddNested := by
  decide

/-- The post-state of `arrange` is either the input container (when no
parameters section is processed, or a stage fails first) or exactly the
post-state of `_combine_pars`. -/
theorem arrange_state (dd : DataDict)
    (dataKeys varKeys objTypes measureKeys paramKeys scenarios :
      Option (List String)) (index : Bool) :
    (arrange dd dataKeys varKeys objTypes measureKeys paramKeys scenarios
      index).2 = dd ∨
    (arrange dd dataKeys varKeys objTypes measureKeys paramKeys scenarios
      index).2 = (combinePars dd).2 := by
  cases hck : checkKeys dd dataKeys with
  | error e => left; simp [arrange, hck]
  | ok keys =>
    cases hsv : stepVars dd keys objTypes varKeys with
    | error e => left; simp [arrange, hck, hsv]
    | ok dfv1 =>
      cases hsm : stepMeasures dd keys dfv1 measureKeys with
      | error e => left; simp [arrange, hck, hsv, hsm]
      | ok dfv2 =>
        by_cases hp : "parameters" ∈ keys
        · right
          rcases hcp : combinePars dd with ⟨r, dd2⟩
          cases r <;> simp [arrange, hck, hsv, hsm, hp, hcp]
        · left
          simp [arrange, hck, hsv, hsm, hp]

/-- C9 (amended): `arrange` is read-only on its input except for the one
in-place effect of `_combine_pars`: with a nested parameters section the
fixed parameters are written into the `varied` sub-table.  With a
non-nested parameters section (flat mapping, plain table, or absent) the
container is returned exactly unchanged, and in every case all keys other
than `parameters` are unchanged. -/
theorem arrange_readonly_unless_nested_pars (dd : DataDict)
    (dataKeys varKeys objTypes measureKeys paramKeys scenarios :
      Option (List String)) (index : Bool)
    (h : nestedPars dd = false) :
    (arrange dd dataKeys varKeys objTypes measureKeys paramKeys scenarios
      index).2 = dd ∧
    ∀ k, k ≠ "parameters" →
      ((arrange dd dataKeys varKeys objTypes measureKeys paramKeys
        scenarios index).2).lookup k = dd.lookup k := by
  rcases arrange_state dd dataKeys varKeys objTypes measureKeys paramKeys
      scenarios index with hst | hst
  · constructor
    · rw [hst]
    · intro k hk; rw [hst]
  · constructor
    · rw [hst]; exact combinePars_state dd h
    · intro k hk; rw [hst]; exact combinePars_state_other dd k hk

/-- C9 (amended) witness: arranging the sample run container (flat
parameters) leaves it untouched, and even on the nested sample every key
other than `parameters` is untouched. -/
theorem arrange_readonly_unless_nested_pars_app :
    (arrange ddRun (some ["parameters"]) none none none none none
      false).2 = ddRun := by
  exact (arrange_readonly_unless_nested_pars ddRun (some ["parameters"])
    none none none none none false (by rfl)).1

theorem rowVal_cons_self (c : String) (v : Val) (cs : List String)
    (vs : List Val) : rowVal (c :: cs) (v :: vs) c = v := by
  simp [rowVal, List.zip_cons_cons, List.lookup_cons]

theorem rowVal_cons_ne (c : String) (v : Val) (cs : List String)
    (vs : List Val) (x : String) (hx : x ≠ c) :
    rowVal (c :: cs) (v :: vs) x = rowVal cs vs x := by
  have hb : (x == c) = false := by simp [hx]
  simp [rowVal, List.zip_cons_cons, List.lookup_cons, hb]

/-- Aligning a row to its own layout is the identity. -/
theorem alignRow_self (cols : List String) (r : List Val)
    (hnd : cols.Nodup) (hl : r.length = cols.length) :
    alignRow cols cols r = r := by
  induction cols generalizing r with
  | nil =>
    cases r with
    | nil => rfl
    | cons v vs => simp at hl
  | cons c cs ih =>
    cases r with
    | nil => simp at hl
    | cons v vs =>
      rw [List.nodup_cons] at hnd
      unfold alignRow
      simp only [List.map_cons]
      have h1 : rowVal (c :: cs) (v :: vs) c = v :=
        rowVal_cons_self c v cs vs
      have h2 : ∀ x ∈ cs, rowVal (c :: cs) (v :: vs) x = rowVal cs vs x :=
        fun x hx => rowVal_cons_ne c v cs vs x (fun h => hnd.1 (h ▸ hx))
      rw [h1, List.map_congr_left h2]
      have := ih vs hnd.2 (by simpa using hl)
      unfold alignRow at this
      rw [this]

theorem lookup_zip_isSome (a : List String) (ra : List Val) (x : String)
    (hx : x ∈ a) (hl : ra.length = a.length) :
    ((a.zip ra).lookup x).isSome = true := by
  induction a generalizing ra with
  | nil => simp at hx
  | cons c cs ih =>
    cases ra with
    | nil => simp at hl
    | cons v vs =>
      simp only [List.zip_cons_cons, List.lookup_cons]
      cases hb : x == c with
      | true => rfl
      | false =>
        have hxcs : x ∈ cs := by
          rcases List.mem_cons.mp hx with h | h
          · rw [h] at hb; simp at hb
          · exact h
        exact ih vs hxcs (by simpa using hl)

theorem lookup_zip_not_mem (a : List String) (ra : List Val) (x : String)
    (hx : x ∉ a) : (a.zip ra).lookup x = none := by
  induction a generalizing ra with
  | nil => rfl
  | cons c cs ih =>
    cases ra with
    | nil => rfl
    | cons v vs =>
      have hb : (x == c) = false := by
        simp; intro h; exact hx (by simp [h])
      simp only [List.zip_cons_cons, List.lookup_cons, hb]
      exact ih vs (fun h => hx (by simp [h]))

theorem rowVal_append_left (a b : List String) (ra rb : List Val)
    (x : String) (hx : x ∈ a) (hl : ra.length = a.length) :
    rowVal (a ++ b) (ra ++ rb) x = rowVal a ra x := by
  unfold rowVal
  rw [List.zip_append hl.symm, lookup_append]
  obtain ⟨v, hv⟩ :=
    Option.isSome_iff_exists.mp (lookup_zip_isSome a ra x hx hl)
  simp [hv]

theorem rowVal_append_right (a b : List String) (ra rb : List Val)
    (x : String) (hx : x ∉ a) (hl : ra.length = a.length) :
    rowVal (a ++ b) (ra ++ rb) x = rowVal b rb x := by
  unfold rowVal
  rw [List.zip_append hl.symm, lookup_append, lookup_zip_not_mem a ra x hx]
  rfl

/-- Aligning a widened row back to the left half of its layout recovers
the left values. -/
theorem alignRow_append_left (a b : List String) (ra rb : List Val)
    (hnd : a.Nodup) (hl : ra.length = a.length) :
    alignRow (a ++ b) a (ra ++ rb) = ra := by
  unfold alignRow
  rw [List.map_congr_left
    (fun x hx => rowVal_append_left a b ra rb x hx hl)]
  have := alignRow_self a ra hnd hl
  unfold alignRow at this
  exact this

/-- Aligning a widened row to the right half of its layout recovers the
right values, provided the halves share no column name. -/
theorem alignRow_append_right (a b : List String) (ra rb : List Val)
    (hndb : b.Nodup) (hlb : rb.length = b.length)
    (hla : ra.length = a.length) (hdisj : ∀ x ∈ b, x ∉ a) :
    alignRow (a ++ b) b (ra ++ rb) = rb := by
  unfold alignRow
  rw [List.map_congr_left
    (fun x hx => rowVal_append_right a b ra rb x (hdisj x hx) hla)]
  have := alignRow_self b rb hndb hlb
  unfold alignRow at this
  exact this

theorem unionCols_two (c1 c2 : List String) :
    unionCols [c1, c2] = c1 ++ c2.filter (fun c => !c1.contains c) := by
  simp [unionCols]

theorem filter_not_contains_self (c : List String) :
    c.filter (fun x => !c.contains x) = [] := by
  rw [List.filter_eq_nil_iff]
  intro a ha
  simp [ha]

theorem unionCols_pair_self (c : List String) : unionCols [c, c] = c := by
  rw [unionCols_two, filter_not_contains_self, List.append_nil]

theorem contains_of_lookup {α : Type} (l : List (String × α)) (k : String)
    (v : α) (h : l.lookup k = some v) :
    (l.map Prod.fst).contains k = true := by
  induction l with
  | nil => simp [List.lookup] at h
  | cons p t ih =>
    obtain ⟨a, b⟩ := p
    rw [List.lookup_cons] at h
    cases hb : k == a with
    | true => simp [List.contains_cons, hb]
    | false =>
      rw [hb] at h
      simp only [List.map_cons, List.contains_cons, hb, Bool.false_or]
      exact ih h

theorem concatRows_pair_self (df : DF) (hnd : df.columns.Nodup)
    (hwf : ∀ r ∈ df.rows, r.2.length = df.columns.length) :
    concatRows [df, df] = .ok
      { indexNames := df.indexNames
        columns := df.columns
        rows := df.rows ++ df.rows } := by
  unfold concatRows
  have hcols : unionCols ([df, df].map (·.columns)) = df.columns := by
    simp only [List.map_cons, List.map_nil]
    exact unionCols_pair_self df.columns
  have hrows : df.rows.map
      (fun r => (r.1, alignRow df.columns df.columns r.2)) = df.rows := by
    have hpt : ∀ r ∈ df.rows,
        (r.1, alignRow df.columns df.columns r.2) = r := by
      intro r hr
      rw [alignRow_self df.columns r.2 hnd (hwf r hr)]
    rw [List.map_congr_left hpt, List.map_id']
  simp only [List.map_cons, List.map_nil, unionCols_pair_self] at hcols
  simp [List.map_cons, List.map_nil, unionCols_pair_self, hrows]

theorem enumIndex_fst (l : List (List Val × List Val)) :
    ((l.enum.map (fun p => ([Val.vInt p.1], p.2.2))).map Prod.fst) =
      (List.range l.length).map (fun i : Nat => [Val.vInt i]) := by
  rw [List.map_map]
  have h1 : (Prod.fst ∘ fun p : Nat × (List Val × List Val) =>
      (([Val.vInt p.1] : List Val), p.2.2)) =
      ((fun i : Nat => [Val.vInt i]) ∘ Prod.fst) := rfl
  rw [h1, ← List.map_map, List.enum_map_fst]

theorem enumIndex_snd (l : List (List Val × List Val)) :
    ((l.enum.map (fun p => ([Val.vInt p.1], p.2.2))).map Prod.snd) =
      l.map Prod.snd := by
  rw [List.map_map]
  have h1 : (Prod.snd ∘ fun p : Nat × (List Val × List Val) =>
      (([Val.vInt p.1] : List Val), p.2.2)) =
      (Prod.snd ∘ Prod.snd) := rfl
  rw [h1, ← List.map_map, List.enum_map_snd]

/-- C1: with a nested parameters section (`fixed={'a': 1}`, a 3-row
`varied` table) and `log['iterations']=2`, the parameter combination
yields a table of exactly 6 rows, column `a` equal to 1 in every row, a
fresh zero-based sequential index named `run_id` running 0..5, and the
rows of copy 1 followed by the rows of copy 2. -/
theorem combinePars_replication (dd : DataDict)
    (ps : List (String × SubEntry)) (tv : DF) (lg : List (String × Val))
    (hpar : dd.lookup "parameters" = some (.sub ps))
    (hvar : ps.lookup "varied" = some (.table tv))
    (hfix : ps.lookup "fixed" = some (.dict [("a", Val.vInt 1)]))
    (hlog : dd.lookup "log" = some (.dict lg))
    (hit : lg.lookup "iterations" = some (.vInt 2))
    (hrows : tv.rows.length = 3)
    (hnd : tv.columns.Nodup)
    (hna : "a" ∉ tv.columns)
    (hwf : ∀ r ∈ tv.rows, r.2.length = tv.columns.length) :
    ∃ out, (combinePars dd).1 = .ok out ∧
      out.rows.length = 6 ∧
      out.indexNames = [some "run_id"] ∧
      out.rows.map Prod.fst =
        (List.range 6).map (fun i : Nat => [Val.vInt i]) ∧
      out.getCol "a" = List.replicate 6 (Val.vInt 1) ∧
      out.rows.map Prod.snd =
        (tv.rows.map (fun r => r.2 ++ [Val.vInt 1])) ++
          (tv.rows.map (fun r => r.2 ++ [Val.vInt 1])) := by
  have hca : tv.columns.contains "a" = false := by simpa using hna
  set dfp0 : DF :=
    { indexNames := tv.indexNames
      columns := tv.columns ++ ["a"]
      rows := tv.rows.map (fun r => (r.1, r.2 ++ [Val.vInt 1])) } with hdfp0
  have hsc : setCol tv "a" (Val.vInt 1) = dfp0 := by
    unfold setCol
    rw [hca]
    simp [hdfp0]
  have hnd2 : dfp0.columns.Nodup := by
    rw [hdfp0]
    rw [List.nodup_append]
    refine ⟨hnd, by simp, ?_⟩
    intro x hx hx2
    rw [List.mem_singleton] at hx2
    exact hna (hx2 ▸ hx)
  have hwf2 : ∀ r ∈ dfp0.rows, r.2.length = dfp0.columns.length := by
    rw [hdfp0]
    intro r hr
    simp only [List.mem_map] at hr
    obtain ⟨r0, hr0, hr0eq⟩ := hr
    subst hr0eq
    simp [hwf r0 hr0]
  set l : List (List Val × List Val) := dfp0.rows ++ dfp0.rows with hl
  set out : DF :=
    { indexNames := [some "run_id"]
      columns := tv.columns ++ ["a"]
      rows := l.enum.map (fun p => ([Val.vInt p.1], p.2.2)) } with hout
  have hfold : [("a", Val.vInt 1)].foldl
      (fun df kv => setCol df kv.1 kv.2) tv = dfp0 := by
    simp only [List.foldl_cons, List.foldl_nil]
    exact hsc
  have hlog2 : (setKeyA dd "parameters"
      (.sub (setKeyA ps "varied" (.table dfp0)))).lookup "log" =
      some (.dict lg) := by
    rw [lookup_setKeyA_ne dd "parameters" "log" _ (by decide)]
    exact hlog
  have hcr : concatRows [dfp0, dfp0] = .ok
      { indexNames := dfp0.indexNames
        columns := dfp0.columns
        rows := l } := concatRows_pair_self dfp0 hnd2 hwf2
  have hpi : parsIter (setKeyA dd "parameters"
      (.sub (setKeyA ps "varied" (.table dfp0)))) dfp0 = .ok out := by
    unfold parsIter
    rw [hlog2]
    simp only [parsIterLog]
    rw [hit]
    simp only [parsIterN]
    have h2 : List.replicate (Int.toNat 2) dfp0 = [dfp0, dfp0] := rfl
    rw [h2, hcr]
    rfl
  have hcp : (combinePars dd).1 = .ok out := by
    unfold combinePars
    rw [hpar]
    show (combineParsNested ps (ps.lookup "varied") (ps.lookup "fixed")
      dd).1 = .ok out
    rw [hvar, hfix]
    simp only [combineParsNested, hfold]
    exact hpi
  have hlen : l.length = 6 := by
    rw [hl]
    simp [hdfp0, hrows]
  refine ⟨out, hcp, ?_, rfl, ?_, ?_, ?_⟩
  · rw [hout]
    simp [hlen]
  · rw [hout]
    simp only []
    rw [enumIndex_fst l, hlen]
  · rw [hout]
    unfold DF.getCol
    simp only []
    rw [List.map_map]
    have h1 : ((fun r : List Val × List Val =>
        rowVal (tv.columns ++ ["a"]) r.2 "a") ∘
        (fun p : Nat × (List Val × List Val) =>
          (([Val.vInt p.1] : List Val), p.2.2))) =
        ((fun r : List Val × List Val =>
          rowVal (tv.columns ++ ["a"]) r.2 "a") ∘ Prod.snd) := rfl
    rw [h1, ← List.map_map, List.enum_map_snd]
    rw [hl, List.map_append]
    have h2 : dfp0.rows.map (fun r : List Val × List Val =>
        rowVal (tv.columns ++ ["a"]) r.2 "a") =
        List.replicate 3 (Val.vInt 1) := by
      rw [hdfp0]
      simp only [List.map_map]
      have h3 : ∀ r ∈ tv.rows, ((fun r : List Val × List Val =>
          rowVal (tv.columns ++ ["a"]) r.2 "a") ∘
          (fun r : List Val × List Val =>
            (r.1, r.2 ++ [Val.vInt 1]))) r = Val.vInt 1 := by
        intro r hr
        show rowVal (tv.columns ++ ["a"]) (r.2 ++ [Val.vInt 1]) "a" =
          Val.vInt 1
        rw [rowVal_append_right tv.columns ["a"] r.2 [Val.vInt 1] "a" hna
          (hwf r hr)]
        exact rowVal_cons_self "a" (Val.vInt 1) [] []
      rw [List.map_congr_left h3]
      simp [hrows]
    rw [h2]
    rfl
  · rw [hout]
    simp only []
    rw [enumIndex_snd l, hl, List.map_append, hdfp0]
    simp only [List.map_map]
    rfl

/-- C1 witness: the sample nested container (`fixed={'a':1}`, 3-row
varied table, 2 iterations) combines to the predicted 6-row table. -/
theorem combinePars_replication_app :
    ∃ out, (combinePars ddNested).1 = .ok out ∧
      out.rows.length = 6 ∧
      out.indexNames = [some "run_id"] ∧
      out.rows.map Prod.fst =
        (List.range 6).map (fun i : Nat => [Val.vInt i]) ∧
      out.getCol "a" = List.replicate 6 (Val.vInt 1) ∧
      out.rows.map Prod.snd =
        (variedSample.rows.map (fun r => r.2 ++ [Val.vInt 1])) ++
          (variedSample.rows.map (fun r => r.2 ++ [Val.vInt 1])) := by
  exact combinePars_replication ddNested
    [("fixed", .dict [("a", .vInt 1)]), ("varied", .table variedSample)]
    variedSample [("name", .vStr "exp"), ("iterations", .vInt 2)]
    rfl rfl rfl rfl rfl rfl (by decide) (by decide) (by decide)

/-- C5: combining a variables container of two object-type tables
`{'A': ta, 'B': tb}` (no filters) yields one concatenated table whose
outermost index level is named `obj_type`, whose level-0 values are
exactly the `A` rows followed by the `B` rows (so the level takes exactly
the values `{'A','B'}` when both tables are nonempty), and whose row
count is `len(ta) + len(tb)`. -/
theorem combineVars_two_types (dd : DataDict) (ta tb : DF)
    (hvar : dd.lookup "variables" =
      some (.sub [("A", .table ta), ("B", .table tb)]))
    (hlen : ta.indexNames.length = tb.indexNames.length)
    (hra : ta.rows ≠ []) (hrb : tb.rows ≠ []) :
    ∃ c, combineVars dd none none = .ok c ∧
      c.rows.length = ta.rows.length + tb.rows.length ∧
      (∃ rest, c.indexNames = some "obj_type" :: rest) ∧
      c.levelVals 0 =
        List.replicate ta.rows.length (Val.vStr "A") ++
          List.replicate tb.rows.length (Val.vStr "B") ∧
      Val.vStr "A" ∈ c.levelVals 0 ∧ Val.vStr "B" ∈ c.levelVals 0 ∧
      ∀ v ∈ c.levelVals 0, v = Val.vStr "A" ∨ v = Val.vStr "B" := by
  have hsub : combineVars dd none none =
      (concatDict [("A", ta), ("B", tb)]).bind (fun c =>
        .ok (setIndexNameL0 c "obj_type")) := by
    unfold combineVars
    rw [hvar]
    rfl
  have hcond : [("B", tb)].all
      (fun x => x.2.indexNames.length = ta.indexNames.length) = true := by
    simp [hlen]
  set U : List String := unionCols [ta.columns, tb.columns] with hU
  set inner : List (Option String) :=
    if [("B", tb)].all (fun x => x.2.indexNames = ta.indexNames) then
      ta.indexNames
    else ta.indexNames.map (fun _ => none) with hinner
  have hcd : concatDict [("A", ta), ("B", tb)] = .ok
      { indexNames := none :: inner
        columns := U
        rows :=
          (ta.rows.map (fun r =>
            (Val.vStr "A" :: r.1, alignRow ta.columns U r.2))) ++
          (tb.rows.map (fun r =>
            (Val.vStr "B" :: r.1, alignRow tb.columns U r.2))) } := by
    simp only [concatDict, hcond, if_true, List.map_cons, List.map_nil,
      List.flatten_cons, List.flatten_nil, List.append_nil]
  set c : DF :=
    { indexNames := some "obj_type" :: inner
      columns := U
      rows :=
        (ta.rows.map (fun r =>
          (Val.vStr "A" :: r.1, alignRow ta.columns U r.2))) ++
        (tb.rows.map (fun r =>
          (Val.vStr "B" :: r.1, alignRow tb.columns U r.2))) } with hc
  have hok : combineVars dd none none = .ok c := by
    rw [hsub, hcd]
    rfl
  have hlv : c.levelVals 0 =
      List.replicate ta.rows.length (Val.vStr "A") ++
        List.replicate tb.rows.length (Val.vStr "B") := by
    rw [hc]
    unfold DF.levelVals
    simp only [List.map_append, List.map_map]
    congr 1
    · rw [show ((fun r : List Val × List Val => r.1.getD 0 .vNA) ∘
        (fun r : List Val × List Val =>
          (Val.vStr "A" :: r.1, alignRow ta.columns U r.2))) =
        (fun _ : List Val × List Val => Val.vStr "A") from rfl]
      exact List.map_const' ta.rows (Val.vStr "A")
    · rw [show ((fun r : List Val × List Val => r.1.getD 0 .vNA) ∘
        (fun r : List Val × List Val =>
          (Val.vStr "B" :: r.1, alignRow tb.columns U r.2))) =
        (fun _ : List Val × List Val => Val.vStr "B") from rfl]
      exact List.map_const' tb.rows (Val.vStr "B")
  have hna0 : ta.rows.length ≠ 0 := by
    intro h0
    exact hra (List.length_eq_zero.mp h0)
  have hnb0 : tb.rows.length ≠ 0 := by
    intro h0
    exact hrb (List.length_eq_zero.mp h0)
  refine ⟨c, hok, ?_, ⟨inner, rfl⟩, hlv, ?_, ?_, ?_⟩
  · rw [hc]
    simp
  · rw [hlv]
    exact List.mem_append_left _ (List.mem_replicate.mpr ⟨hna0, rfl⟩)
  · rw [hlv]
    exact List.mem_append_right _ (List.mem_replicate.mpr ⟨hnb0, rfl⟩)
  · intro v hv
    rw [hlv] at hv
    rcases List.mem_append.mp hv with h | h
    · exact Or.inl (List.eq_of_mem_replicate h)
    · exact Or.inr (List.eq_of_mem_replicate h)

/-- C5 witness: the sample two-type variables container combines to a
3-row table with `obj_type` values `A, A, B`. -/
theorem combineVars_two_types_app :
    ∃ c, combineVars [("variables",
        .sub [("A", .table tableA), ("B", .table tableB)])] none none =
        .ok c ∧
      c.rows.length = tableA.rows.length + tableB.rows.length ∧
      (∃ rest, c.indexNames = some "obj_type" :: rest) ∧
      c.levelVals 0 =
        List.replicate tableA.rows.length (Val.vStr "A") ++
          List.replicate tableB.rows.length (Val.vStr "B") ∧
      Val.vStr "A" ∈ c.levelVals 0 ∧ Val.vStr "B" ∈ c.levelVals 0 ∧
      ∀ v ∈ c.levelVals 0, v = Val.vStr "A" ∨ v = Val.vStr "B" := by
  exact combineVars_two_types
    [("variables", .sub [("A", .table tableA), ("B", .table tableB)])]
    tableA tableB rfl rfl (by decide) (by decide)

theorem setKeyA_fresh {α : Type} (l : List (String × α)) (k : String)
    (v : α) (h : l.any (fun kv => kv.1 = k) = false) :
    setKeyA l k v = l ++ [(k, v)] := by
  unfold setKeyA
  rw [h]
  rfl

theorem loadFile_bad (fname : String) : loadFile fname .bad = none := by
  unfold loadFile
  by_cases h1 : extOf fname = "csv" <;> by_cases h2 : extOf fname = "json" <;>
    simp [h1, h2]

theorem loadedEntry_bad (fname : String) : loadedEntry fname .bad = .null := by
  unfold loadedEntry
  rw [loadFile_bad]

theorem loadFiles_top_aux (files : List (String × FileContent))
    (acc : DataDict)
    (hsub : ∀ p ∈ files, hasSub p.1 "variables_" = false ∧
      hasSub p.1 "parameters_" = false)
    (hnd : (files.map (fun p => stripExt p.1)).Nodup)
    (hdisj : ∀ p ∈ files, (keysOf acc).contains (stripExt p.1) = false) :
    files.foldl (fun dd fc =>
      if hasSub fc.1 "variables_" then
        setNested dd "variables"
          (replaceAll (stripExt fc.1) "variables_") (loadedSub fc.1 fc.2)
      else if hasSub fc.1 "parameters_" then
        setNested dd "parameters"
          (replaceAll (stripExt fc.1) "parameters_") (loadedSub fc.1 fc.2)
      else setKeyA dd (stripExt fc.1) (loadedEntry fc.1 fc.2)) acc =
    acc ++ files.map (fun p => (stripExt p.1, loadedEntry p.1 p.2)) := by
  induction files generalizing acc with
  | nil => simp
  | cons f fs ih =>
    have hf := hsub f (by simp)
    have hfree : acc.any (fun kv => kv.1 = stripExt f.1) = false := by
      have hd := hdisj f (by simp)
      unfold keysOf at hd
      rw [Bool.eq_false_iff] at hd ⊢
      intro hany
      apply hd
      rw [List.any_eq_true] at hany
      obtain ⟨kv, hkv, hkveq⟩ := hany
      have hmem : stripExt f.1 ∈ acc.map Prod.fst := by
        rw [List.mem_map]
        exact ⟨kv, hkv, by simpa using hkveq⟩
      simpa using hmem
    simp only [List.foldl_cons, hf.1, hf.2, Bool.false_eq_true, if_false]
    rw [setKeyA_fresh acc (stripExt f.1) (loadedEntry f.1 f.2) hfree]
    rw [List.map_cons] at hnd
    rw [List.nodup_cons] at hnd
    have hstep := ih (acc ++ [(stripExt f.1, loadedEntry f.1 f.2)])
      (fun p hp => hsub p (by simp [hp]))
      hnd.2
      (fun p hp => by
        unfold keysOf
        rw [Bool.eq_false_iff]
        intro hc
        have hmem : stripExt p.1 ∈
            (acc ++ [(stripExt f.1, loadedEntry f.1 f.2)]).map Prod.fst := by
          simpa using hc
        rw [List.map_append, List.mem_append] at hmem
        rcases hmem with hm | hm
        · have hd := hdisj p (by simp [hp])
          unfold keysOf at hd
          rw [Bool.eq_false_iff] at hd
          exact hd (by simpa using hm)
        · simp only [List.map_cons, List.map_nil,
            List.mem_singleton] at hm
          exact hnd.1 (hm ▸ List.mem_map_of_mem
            (fun q => stripExt q.1) hp))
    rw [hstep, List.append_assoc]
    rfl

theorem lookup_map_self {α β : Type} (key : α → String) (ent : α → β)
    (l : List α) (hnd : (l.map key).Nodup) (p0 : α) (hp : p0 ∈ l) :
    (l.map (fun p => (key p, ent p))).lookup (key p0) = some (ent p0) := by
  induction l with
  | nil => simp at hp
  | cons q t ih =>
    rw [List.map_cons, List.nodup_cons] at hnd
    rcases List.mem_cons.mp hp with h | h
    · subst h
      simp [List.lookup_cons]
    · have hne : (key p0 == key q) = false := by
        have : key p0 ≠ key q := by
          intro heq
          exact hnd.1 (heq ▸ List.mem_map_of_mem key h)
        simp [this]
      simp only [List.map_cons, List.lookup_cons, hne]
      exact ih hnd.2 h

/-- C3 counterexample: loading a directory with one valid and one corrupt
file populates the valid key, but the corrupt file's key is *present* in
the container, mapped to `None` — not absent, as the claim states
(`self[key] = load_file(...)` stores the `None` that the failed
`load_file` returns). -/
theorem loadFiles_failed_key_present_concrete :
    (loadFiles [("good.csv", FileContent.csvData (csvWrite tableA)),
      ("bad.csv", FileContent.bad)]).lookup "bad" = some Entry.null ∧
    (loadFiles [("good.csv", FileContent.csvData (csvWrite tableA)),
      ("bad.csv", FileContent.bad)]).lookup "good" =
        some (Entry.table tableA) := by
  constructor <;> rfl

/-- C3 (amended): loading a directory never raises on a bad file and
processes every file: each decodable file's key is populated with its
decoded value, and each failing file's key is present in the container
mapped to a null value (`None`) — not absent.  (Stated for top-level
files: names without the `variables_`/`parameters_` grouping infixes and
with pairwise-distinct stripped names, as `listdir` yields.) -/
theorem loadFiles_partial_failure (files : List (String × FileContent))
    (hsub : ∀ p ∈ files, hasSub p.1 "variables_" = false ∧
      hasSub p.1 "parameters_" = false)
    (hnd : (files.map (fun p => stripExt p.1)).Nodup) :
    loadFiles files =
      files.map (fun p => (stripExt p.1, loadedEntry p.1 p.2)) ∧
    (∀ p ∈ files, p.2 = .bad →
      (loadFiles files).lookup (stripExt p.1) = some Entry.null) ∧
    (∀ p ∈ files, ∀ cv, p.2 = .csvData cv → extOf p.1 = "csv" →
      (loadFiles files).lookup (stripExt p.1) =
        some (Entry.table (csvRead cv))) := by
  have hmain : loadFiles files =
      files.map (fun p => (stripExt p.1, loadedEntry p.1 p.2)) := by
    unfold loadFiles
    have := loadFiles_top_aux files [] hsub hnd (fun p hp => rfl)
    rw [this]
    rfl
  refine ⟨hmain, ?_, ?_⟩
  · intro p hp hbad
    rw [hmain]
    have hls := lookup_map_self (fun q => stripExt q.1)
      (fun q => loadedEntry q.1 q.2) files hnd p hp
    rw [hls]
    show some (loadedEntry p.1 p.2) = some Entry.null
    rw [hbad, loadedEntry_bad]
  · intro p hp cv hcv hext
    rw [hmain]
    have hls := lookup_map_self (fun q => stripExt q.1)
      (fun q => loadedEntry q.1 q.2) files hnd p hp
    rw [hls]
    show some (loadedEntry p.1 p.2) = some (Entry.table (csvRead cv))
    rw [hcv]
    unfold loadedEntry loadFile
    rw [hext]
    simp

/-- C3 (amended) witness: the two-file directory with one corrupt file. -/
theorem loadFiles_partial_failure_app :
    loadFiles [("good.csv", FileContent.csvData (csvWrite tableA)),
        ("bad.csv", FileContent.bad)] =
      [("good.csv", FileContent.csvData (csvWrite tableA)),
        ("bad.csv", FileContent.bad)].map
        (fun p => (stripExt p.1, loadedEntry p.1 p.2)) ∧
    (∀ p ∈ [("good.csv", FileContent.csvData (csvWrite tableA)),
        ("bad.csv", FileContent.bad)], p.2 = .bad →
      (loadFiles [("good.csv", FileContent.csvData (csvWrite tableA)),
        ("bad.csv", FileContent.bad)]).lookup (stripExt p.1) =
          some Entry.null) ∧
    (∀ p ∈ [("good.csv", FileContent.csvData (csvWrite tableA)),
        ("bad.csv", FileContent.bad)], ∀ cv, p.2 = .csvData cv →
      extOf p.1 = "csv" →
      (loadFiles [("good.csv", FileContent.csvData (csvWrite tableA)),
        ("bad.csv", FileContent.bad)]).lookup (stripExt p.1) =
          some (Entry.table (csvRead cv))) := by
  exact loadFiles_partial_failure
    [("good.csv", FileContent.csvData (csvWrite tableA)),
      ("bad.csv", FileContent.bad)]
    (by decide) (by decide)

/-- Explicit form of a nonempty dictionary concatenation. -/
theorem concatDict_cons (pk : String) (pdf : DF)
    (rest : List (String × DF))
    (hall : rest.all
      (fun x => x.2.indexNames.length = pdf.indexNames.length) = true) :
    concatDict ((pk, pdf) :: rest) = .ok
      { indexNames := none ::
          (if rest.all (fun x => x.2.indexNames = pdf.indexNames) then
            pdf.indexNames
          else pdf.indexNames.map (fun _ => none))
        columns := unionCols (((pk, pdf) :: rest).map
          (fun x => x.2.columns))
        rows := (((pk, pdf) :: rest).map (fun kv =>
          kv.2.rows.map (fun r =>
            (Val.vStr kv.1 :: r.1,
             alignRow kv.2.columns
               (unionCols (((pk, pdf) :: rest).map (fun x => x.2.columns)))
               r.2)))).flatten } := by
  simp only [concatDict, hall, if_true]

/-- A nonempty dictionary concatenation with unequal index depths
raises. -/
theorem concatDict_cons_err (pk : String) (pdf : DF)
    (rest : List (String × DF))
    (hall : ¬ rest.all
      (fun x => x.2.indexNames.length = pdf.indexNames.length) = true) :
    concatDict ((pk, pdf) :: rest) =
      .error "concat of frames with differing index depths" := by
  simp only [concatDict]
  rw [if_neg hall]

/-- Every value of the outermost index level of a dictionary
concatenation is one of the dictionary keys. -/
theorem concatDict_level0 (d : List (String × DF)) (c : DF)
    (h : concatDict d = .ok c) :
    ∀ v ∈ c.levelVals 0, ∃ p ∈ d, v = Val.vStr p.1 := by
  cases d with
  | nil => simp [concatDict] at h
  | cons p rest =>
    obtain ⟨pk, pdf⟩ := p
    by_cases hc : rest.all
        (fun x => x.2.indexNames.length = pdf.indexNames.length) = true
    · rw [concatDict_cons pk pdf rest hc] at h
      injection h with h
      subst h
      intro v hv
      unfold DF.levelVals at hv
      rw [List.mem_map] at hv
      obtain ⟨r, hr, hrv⟩ := hv
      simp only [List.mem_flatten, List.mem_map] at hr
      obtain ⟨sub, ⟨kv, hkv, hkveq⟩, hrsub⟩ := hr
      subst hkveq
      rw [List.mem_map] at hrsub
      obtain ⟨r0, _, hr0eq⟩ := hrsub
      subst hr0eq
      exact ⟨kv, hkv, by rw [← hrv]; rfl⟩
    · rw [concatDict_cons_err pk pdf rest hc] at h
      exact absurd h (by simp)

/-- Column projection keeps the index part of every row. -/
theorem selectCols_ok (df c : DF) (ks : List String) (i : Nat)
    (h : selectCols df ks = .ok c) :
    c.columns = ks ∧ c.levelVals i = df.levelVals i := by
  unfold selectCols at h
  by_cases he : (ks.filter (fun k => !df.columns.contains k)).isEmpty = true
  · rw [if_pos he] at h
    injection h with h
    subst h
    refine ⟨rfl, ?_⟩
    unfold DF.levelVals
    rw [List.map_map]
    rfl
  · rw [if_neg he] at h
    exact absurd h (by simp)

/-- C7: with `var_keys` given over a multi-entry variables container (all
entries tables), tables containing none of the requested columns are
silently excluded before concatenation — no error arises from them, and
the `obj_type` level of a successful result only carries kept keys — but
the final projection raises a `KeyError` naming the requested columns
missing from the concatenated result, and that error propagates out of
`arrange`. -/
theorem combineVars_var_keys_filter (dd : DataDict)
    (sd : List (String × SubEntry)) (td : List (String × DF))
    (ks : List String) (k : String)
    (hvar : dd.lookup "variables" = some (.sub sd))
    (hext : extractTables sd = .ok td)
    (hlen1 : sd.length ≠ 1)
    (hks : ks ≠ [])
    (hkne : keptFor td ks ≠ [])
    (hlv : ∀ p ∈ keptFor td ks, ∀ q ∈ keptFor td ks,
      p.2.indexNames.length = q.2.indexNames.length) :
    ((∀ x ∈ ks, x ∈ concatUnionCols td ks) →
      ∃ c, combineVars dd none (some ks) = .ok c ∧ c.columns = ks ∧
        ∀ v ∈ c.levelVals 0, ∃ p ∈ keptFor td ks, v = Val.vStr p.1) ∧
    (k ∈ ks → k ∉ concatUnionCols td ks →
      combineVars dd none (some ks) = .error (keyErrMsg
        (ks.filter (fun x => !(concatUnionCols td ks).contains x))) ∧
      k ∈ ks.filter (fun x => !(concatUnionCols td ks).contains x) ∧
      arrange dd (some ["variables"]) (some ks) none none none none
        false = (.error (keyErrMsg
          (ks.filter (fun x => !(concatUnionCols td ks).contains x))),
          dd)) := by
  obtain ⟨k0, kt, hksc⟩ : ∃ k0 kt, ks = k0 :: kt := by
    cases ks with
    | nil => exact absurd rfl hks
    | cons a b => exact ⟨a, b, rfl⟩
  have step1 : combineVars dd none (some ks) =
      (concatDict (keptFor td ks)).bind
        (fun c => selectCols (setIndexNameL0 c "obj_type") ks) := by
    unfold combineVars
    rw [hvar]
    show combineVarsSub sd none (some ks) = _
    unfold combineVarsSub
    rw [if_neg hlen1, hext]
    subst hksc
    rfl
  obtain ⟨⟨pk, pdf⟩, rest, hkc⟩ :
      ∃ p rest, keptFor td ks = p :: rest := by
    cases hx : keptFor td ks with
    | nil => exact absurd hx hkne
    | cons a b => exact ⟨a, b, rfl⟩
  have hall : rest.all
      (fun x => x.2.indexNames.length = pdf.indexNames.length) = true := by
    rw [List.all_eq_true]
    intro x hx
    have := hlv x (hkc ▸ List.mem_cons_of_mem (pk, pdf) hx)
      (pk, pdf) (hkc ▸ List.mem_cons_self (pk, pdf) rest)
    simpa using this
  have hc0 : concatDict (keptFor td ks) = .ok
      { indexNames := none ::
          (if rest.all (fun x => x.2.indexNames = pdf.indexNames) then
            pdf.indexNames
          else pdf.indexNames.map (fun _ => none))
        columns := unionCols (((pk, pdf) :: rest).map
          (fun x => x.2.columns))
        rows := (((pk, pdf) :: rest).map (fun kv =>
          kv.2.rows.map (fun r =>
            (Val.vStr kv.1 :: r.1,
             alignRow kv.2.columns
               (unionCols (((pk, pdf) :: rest).map (fun x => x.2.columns)))
               r.2)))).flatten } := by
    rw [hkc]
    exact concatDict_cons pk pdf rest hall
  set c0 : DF :=
    { indexNames := none ::
        (if rest.all (fun x => x.2.indexNames = pdf.indexNames) then
          pdf.indexNames
        else pdf.indexNames.map (fun _ => none))
      columns := unionCols (((pk, pdf) :: rest).map
        (fun x => x.2.columns))
      rows := (((pk, pdf) :: rest).map (fun kv =>
        kv.2.rows.map (fun r =>
          (Val.vStr kv.1 :: r.1,
           alignRow kv.2.columns
             (unionCols (((pk, pdf) :: rest).map (fun x => x.2.columns)))
             r.2)))).flatten } with hc0def
  have hc2cols : (setIndexNameL0 c0 "obj_type").columns =
      concatUnionCols td ks := by
    unfold concatUnionCols
    rw [hkc]
    rfl
  have hbind : combineVars dd none (some ks) =
      selectCols (setIndexNameL0 c0 "obj_type") ks := by
    rw [step1, hc0]
    rfl
  constructor
  · intro hallmem
    have hemp : (ks.filter
        (fun x => !(setIndexNameL0 c0 "obj_type").columns.contains x)) =
        [] := by
      rw [List.filter_eq_nil_iff]
      intro a ha
      have hmem : a ∈ (setIndexNameL0 c0 "obj_type").columns := by
        rw [hc2cols]
        exact hallmem a ha
      simp [hmem]
    have hemp2 : (ks.filter
        (fun x => !(setIndexNameL0 c0 "obj_type").columns.contains
          x)).isEmpty = true := by
      rw [hemp]
      rfl
    cases hsel : selectCols (setIndexNameL0 c0 "obj_type") ks with
    | error e =>
      unfold selectCols at hsel
      rw [if_pos hemp2] at hsel
      exact absurd hsel (by simp)
    | ok c =>
      obtain ⟨hcols, hlveq⟩ :=
        selectCols_ok (setIndexNameL0 c0 "obj_type") c ks 0 hsel
      refine ⟨c, by rw [hbind, hsel], hcols, ?_⟩
      intro v hv
      rw [hlveq] at hv
      have hlv0 : (setIndexNameL0 c0 "obj_type").levelVals 0 =
          c0.levelVals 0 := rfl
      rw [hlv0] at hv
      obtain ⟨q, hq, hqv⟩ := concatDict_level0 (keptFor td ks) c0 hc0 v hv
      exact ⟨q, hq, hqv⟩
  · intro hkin hkout
    have hkmem : k ∈ ks.filter
        (fun x => !(concatUnionCols td ks).contains x) := by
      rw [List.mem_filter]
      refine ⟨hkin, ?_⟩
      simp [hkout]
    have hne : (ks.filter
        (fun x => !(setIndexNameL0 c0 "obj_type").columns.contains x)) =
        ks.filter (fun x => !(concatUnionCols td ks).contains x) := by
      rw [hc2cols]
    have hnemp : ¬ (ks.filter
        (fun x => !(concatUnionCols td ks).contains x)).isEmpty = true := by
      cases hx : ks.filter (fun x => !(concatUnionCols td ks).contains x)
      · rw [hx] at hkmem
        simp at hkmem
      · simp
    have herr : combineVars dd none (some ks) = .error (keyErrMsg
        (ks.filter (fun x => !(concatUnionCols td ks).contains x))) := by
      rw [hbind]
      unfold selectCols
      rw [hne, if_neg hnemp]
    refine ⟨herr, hkmem, ?_⟩
    have hc1 : (keysOf dd).contains "variables" = true :=
      contains_of_lookup dd "variables" _ hvar
    have hm : "variables" ∈ keysOf dd := by simpa using hc1
    have hfb : findBadKey (keysOf dd) ["variables"] = none := by
      simp [findBadKey, hm, supportedKeys]
    have hck : checkKeys dd (some ["variables"]) = .ok ["variables"] := by
      simp [checkKeys, hfb]
    have hsv : stepVars dd ["variables"] none (some ks) =
        .error (keyErrMsg
          (ks.filter (fun x => !(concatUnionCols td ks).contains x))) := by
      unfold stepVars
      rw [if_pos (by rfl), herr]
      rfl
    simp [arrange, hck, hsv]

/-- C7 witness: requesting `x, y` keeps both tables and projects to
exactly those columns; requesting `x, zz` silently drops table `B`
(which has neither column) and then raises a `KeyError` naming `zz`,
which propagates out of `arrange`. -/
theorem combineVars_var_keys_filter_app :
    (∃ c, combineVars ddV7 none (some ["x", "y"]) = .ok c ∧
      c.columns = ["x", "y"] ∧
      ∀ v ∈ c.levelVals 0, ∃ p ∈ keptFor tdV7 ["x", "y"],
        v = Val.vStr p.1) ∧
    (combineVars ddV7 none (some ["x", "zz"]) = .error (keyErrMsg
      (["x", "zz"].filter
        (fun x => !(concatUnionCols tdV7 ["x", "zz"]).contains x))) ∧
    "zz" ∈ ["x", "zz"].filter
      (fun x => !(concatUnionCols tdV7 ["x", "zz"]).contains x) ∧
    arrange ddV7 (some ["variables"]) (some ["x", "zz"]) none none none
      none false = (.error (keyErrMsg (["x", "zz"].filter
        (fun x => !(concatUnionCols tdV7 ["x", "zz"]).contains x))),
        ddV7)) := by
  constructor
  · exact (combineVars_var_keys_filter ddV7
      [("A", .table tableA), ("B", .table tableB)] tdV7 ["x", "y"] "x"
      rfl rfl (by decide) (by decide) (by decide) (by decide)).1
      (by decide)
  · exact (combineVars_var_keys_filter ddV7
      [("A", .table tableA), ("B", .table tableB)] tdV7 ["x", "zz"] "zz"
      rfl rfl (by decide) (by decide) (by decide) (by decide)).2
      (by decide) (by decide)

theorem hasSub_append_self (nm x : String) : hasSub (nm ++ x) nm = true := by
  unfold hasSub
  rw [List.any_eq_true]
  refine ⟨0, by simp, ?_⟩
  show nm.data.isPrefixOf ((nm ++ x).data.drop 0) = true
  rw [List.drop_zero, String.data_append, List.isPrefixOf_iff_prefix]
  exact List.prefix_append _ _

theorem foldl_max_init (l : List Int) (x : Int) : x ≤ l.foldl max x := by
  induction l generalizing x with
  | nil => exact le_refl x
  | cons a t ih =>
    exact le_trans (le_max_left x a) (ih (max x a))

theorem foldl_max_le (l : List Int) (x a : Int) (h : a ∈ l) :
    a ≤ l.foldl max x := by
  induction l generalizing x with
  | nil => simp at h
  | cons b t ih =>
    rcases List.mem_cons.mp h with hb | hb
    · subst hb
      exact le_trans (le_max_right x a) (foldl_max_init t (max x a))
    · exact ih (max x b) hb

theorem maxInt_le_of_mem (l : List Int) (a : Int) (h : a ∈ l) :
    a ≤ maxInt l := by
  cases l with
  | nil => simp at h
  | cons x xs =>
    rcases List.mem_cons.mp h with hb | hb
    · subst hb
      exact foldl_max_init xs a
    · exact foldl_max_le xs x a hb

theorem intsOf_mem (dirs : List String) (ids : List Int)
    (h : intsOf dirs = .ok ids) (d : String) (hd : d ∈ dirs) (j : Int)
    (hj : trailingInt d = some j) : j ∈ ids := by
  induction dirs generalizing ids with
  | nil => simp at hd
  | cons a t ih =>
    simp only [intsOf] at h
    cases hta : trailingInt a with
    | none => rw [hta] at h; simp at h
    | some i =>
      rw [hta] at h
      cases hit : intsOf t with
      | error e => rw [hit] at h; simp [Except.map] at h
      | ok l2 =>
        rw [hit] at h
        have hids : ids = i :: l2 := by
          simpa [Except.map] using h.symm
        subst hids
        rcases List.mem_cons.mp hd with hda | hda
        · subst hda
          rw [hta] at hj
          injection hj with hj
          subst hj
          exact List.mem_cons_self i l2
        · exact List.mem_cons_of_mem i (ih l2 hit hda)

theorem intsOf_append (l1 l2 : List String) (ids1 ids2 : List Int)
    (h1 : intsOf l1 = .ok ids1) (h2 : intsOf l2 = .ok ids2) :
    intsOf (l1 ++ l2) = .ok (ids1 ++ ids2) := by
  induction l1 generalizing ids1 with
  | nil =>
    simp only [intsOf] at h1
    injection h1 with h1
    subst h1
    simpa using h2
  | cons a t ih =>
    simp only [intsOf] at h1
    cases hta : trailingInt a with
    | none => rw [hta] at h1; simp at h1
    | some i =>
      rw [hta] at h1
      cases hit : intsOf t with
      | error e => rw [hit] at h1; simp [Except.map] at h1
      | ok l3 =>
        rw [hit] at h1
        have hids : ids1 = i :: l3 := by
          simpa [Except.map] using h1.symm
        subst hids
        rw [List.cons_append]
        simp only [intsOf]
        rw [hta, ih l3 hit]
        rfl

/-- Every trailing id of a matching directory is bounded by the resolved
last experiment id. -/
theorem lastExpId_bound (nm : String) (listing : List String) (m : Int)
    (h : lastExpId nm listing = .ok m) :
    ∀ d ∈ listing, hasSub d nm = true → ∀ j, trailingInt d = some j →
      j ≤ m := by
  intro d hd hs j hj
  unfold lastExpId at h
  have hdm : d ∈ listing.filter (fun s => hasSub s nm) :=
    List.mem_filter.mpr ⟨hd, hs⟩
  cases hx : listing.filter (fun s => hasSub s nm) with
  | nil => rw [hx] at hdm; simp at hdm
  | cons a t =>
    rw [hx] at h hdm
    simp only [lastExpIdDirs] at h
    cases hio : intsOf (a :: t) with
    | error e => rw [hio] at h; simp [Except.map] at h
    | ok ids =>
      rw [hio] at h
      have hm : maxInt ids = m := by simpa [Except.map] using h
      rw [← hm]
      exact maxInt_le_of_mem ids j (intsOf_mem (a :: t) ids hio d hdm j hj)

/-- Appending a matching directory with a trailing id at least the
current maximum makes that id the new maximum. -/
theorem lastExpId_append (nm dnew : String) (listing : List String)
    (m k : Int) (h1 : lastExpId nm listing = .ok m)
    (hsubk : hasSub dnew nm = true) (htk : trailingInt dnew = some k)
    (hmk : m ≤ k) :
    lastExpId nm (listing ++ [dnew]) = .ok k := by
  unfold lastExpId at h1 ⊢
  rw [List.filter_append]
  have hfd : [dnew].filter (fun s => hasSub s nm) = [dnew] := by
    simp [hsubk]
  rw [hfd]
  have hin : intsOf [dnew] = .ok [k] := by
    simp only [intsOf]
    rw [htk]
    rfl
  cases hx : listing.filter (fun s => hasSub s nm) with
  | nil =>
    simp only [List.nil_append, lastExpIdDirs, hin]
    show Except.ok (maxInt [k]) = Except.ok k
    rfl
  | cons a t =>
    rw [hx] at h1
    simp only [lastExpIdDirs] at h1
    cases hio : intsOf (a :: t) with
    | error e => rw [hio] at h1; simp [Except.map] at h1
    | ok ids =>
      rw [hio] at h1
      have hm : maxInt ids = m := by simpa [Except.map] using h1
      rw [List.cons_append]
      simp only [lastExpIdDirs]
      rw [← List.cons_append, intsOf_append (a :: t) [dnew] ids [k] hio hin]
      have hids : ∃ i l2, ids = i :: l2 := by
        cases hids0 : ids with
        | nil =>
          simp only [intsOf] at hio
          cases hta : trailingInt a with
          | none => rw [hta] at hio; simp at hio
          | some i =>
            rw [hta] at hio
            cases hit : intsOf t with
            | error e => rw [hit] at hio; simp [Except.map] at hio
            | ok l3 =>
              rw [hit] at hio
              rw [hids0] at hio
              simp [Except.map] at hio
        | cons i l2 => exact ⟨i, l2, rfl⟩
      obtain ⟨i, l2, hids⟩ := hids
      subst hids
      show Except.ok (maxInt ((i :: l2) ++ [k])) = Except.ok k
      have hmx : maxInt ((i :: l2) ++ [k]) = max (maxInt (i :: l2)) k := by
        show (l2 ++ [k]).foldl max i = max (l2.foldl max i) k
        rw [List.foldl_append]
        rfl
      rw [hmx, hm, max_eq_right hmk]

/-- C8: with no explicit `exp_id`, `save` resolves the id by scanning the
listing for names containing the experiment name, taking the maximum
trailing underscore-delimited integer (0 with no match) and adding one;
consequently a second `save` with no explicit id creates a directory
whose id is exactly one greater than the highest existing id.  (The
hypotheses state that the scan of the current listing resolves to `m`
and that a freshly built `{name}_{id}` directory name parses back to its
id, as decimal suffixes do.) -/
theorem save_exp_id_increments (nm : String) (listing : List String)
    (m : Int) (hnm : underscoreSpaces nm = nm)
    (h1 : lastExpId nm listing = .ok m)
    (ht1 : trailingInt (nm ++ "_" ++ toString (m + 1)) = some (m + 1))
    (ht2 : trailingInt (nm ++ "_" ++ toString (m + 2)) = some (m + 2)) :
    saveDirName nm none listing =
      .ok (nm ++ "_" ++ toString (m + 1), m + 1) ∧
    lastExpId nm (listing ++ [nm ++ "_" ++ toString (m + 1)]) =
      .ok (m + 1) ∧
    saveDirName nm none (listing ++ [nm ++ "_" ++ toString (m + 1)]) =
      .ok (nm ++ "_" ++ toString (m + 2), m + 2) := by
  have hs1 : hasSub (nm ++ "_" ++ toString (m + 1)) nm = true := by
    rw [String.append_assoc]
    exact hasSub_append_self nm _
  have hs2 : hasSub (nm ++ "_" ++ toString (m + 2)) nm = true := by
    rw [String.append_assoc]
    exact hasSub_append_self nm _
  have hnotin1 : listing.contains (nm ++ "_" ++ toString (m + 1)) =
      false := by
    rw [Bool.eq_false_iff]
    intro hc
    have hmem : (nm ++ "_" ++ toString (m + 1)) ∈ listing := by
      simpa using hc
    have := lastExpId_bound nm listing m h1 _ hmem hs1 (m + 1) ht1
    omega
  have hfirst : saveDirName nm none listing =
      .ok (nm ++ "_" ++ toString (m + 1), m + 1) := by
    simp only [saveDirName, hnm, h1, Except.map, Except.bind]
    rw [hnotin1]
    simp
  have hle2 : lastExpId nm (listing ++ [nm ++ "_" ++ toString (m + 1)]) =
      .ok (m + 1) :=
    lastExpId_append nm (nm ++ "_" ++ toString (m + 1)) listing m (m + 1)
      h1 hs1 ht1 (by omega)
  have hnotin2 : (listing ++ [nm ++ "_" ++ toString (m + 1)]).contains
      (nm ++ "_" ++ toString (m + 2)) = false := by
    rw [Bool.eq_false_iff]
    intro hc
    have hmem : (nm ++ "_" ++ toString (m + 2)) ∈
        listing ++ [nm ++ "_" ++ toString (m + 1)] := by
      simpa using hc
    have := lastExpId_bound nm (listing ++ [nm ++ "_" ++ toString (m + 1)])
      (m + 1) hle2 _ hmem hs2 (m + 2) ht2
    omega
  have hsecond : saveDirName nm none
      (listing ++ [nm ++ "_" ++ toString (m + 1)]) =
      .ok (nm ++ "_" ++ toString (m + 2), m + 2) := by
    simp only [saveDirName, hnm, hle2, Except.map, Except.bind]
    rw [show m + 1 + 1 = m + 2 from by omega]
    rw [hnotin2]
    simp
  exact ⟨hfirst, hle2, hsecond⟩

/-- C8 witness: with existing directories `exp_1`, `exp_3` and an
unrelated name, the first save creates `exp_4` and a second save creates
`exp_5` — one greater than the new highest id. -/
theorem save_exp_id_increments_app :
    saveDirName "exp" none ["exp_1", "exp_3", "other"] =
      .ok ("exp" ++ "_" ++ toString ((3 : Int) + 1), 3 + 1) ∧
    lastExpId "exp" (["exp_1", "exp_3", "other"] ++
      ["exp" ++ "_" ++ toString ((3 : Int) + 1)]) = .ok (3 + 1) ∧
    saveDirName "exp" none (["exp_1", "exp_3", "other"] ++
      ["exp" ++ "_" ++ toString ((3 : Int) + 1)]) =
      .ok ("exp" ++ "_" ++ toString ((3 : Int) + 2), 3 + 2) := by
  exact save_exp_id_increments "exp" ["exp_1", "exp_3", "other"] 3
    (by decide) (by rfl) (by decide) (by decide)

/-- Writing a table to CSV (index levels demoted to leading columns) and
reading it back (recognized index columns promoted, in `i_cols` order)
is the identity, provided the table looks like run output: all index
levels named, drawn from the recognized set in its order, data columns
disjoint from that set, and rows matching the headers. -/
theorem csvRead_csvWrite (df : DF) (inames : List String)
    (hsome : df.indexNames = inames.map some)
    (horder : inames = iCols.filter (fun c => inames.contains c))
    (hinne : inames ≠ [])
    (hnd : df.columns.Nodup)
    (hdisj : ∀ c ∈ df.columns, c ∉ iCols)
    (hwf : ∀ r ∈ df.rows, r.1.length = inames.length ∧
      r.2.length = df.columns.length) :
    csvRead (csvWrite df) = df := by
  have iColsNodup : iCols.Nodup := by decide
  have hndi : inames.Nodup := by
    rw [horder]
    exact iColsNodup.filter _
  have hsubi : ∀ c ∈ inames, c ∈ iCols := by
    intro c hc
    rw [horder] at hc
    exact (List.mem_filter.mp hc).1
  have hdisj2 : ∀ c ∈ df.columns, c ∉ inames :=
    fun c hc hin => hdisj c hc (hsubi c hin)
  have hmapnames : df.indexNames.map (fun o => o.getD "") = inames := by
    rw [hsome, List.map_map]
    have hco : ((fun (o : Option String) => o.getD "") ∘ some) =
        (fun a : String => a) := rfl
    rw [hco, List.map_id']
  have hheader : (csvWrite df).header = inames ++ df.columns := by
    simp only [csvWrite]
    rw [hmapnames]
  have hidx : iCols.filter
      (fun i => (inames ++ df.columns).contains i) = inames := by
    have hcongr : ∀ c ∈ iCols,
        ((inames ++ df.columns).contains c) = (inames.contains c) := by
      intro c hc
      by_cases hm : c ∈ inames
      · have h1 : (inames ++ df.columns).contains c = true := by simp [hm]
        have h2 : inames.contains c = true := by simp [hm]
        rw [h1, h2]
      · have hcc : c ∉ df.columns := fun hx => hdisj c hx hc
        have h1 : (inames ++ df.columns).contains c = false := by
          simp [hm, hcc]
        have h2 : inames.contains c = false := by simp [hm]
        rw [h1, h2]
    rw [List.filter_congr hcongr]
    exact horder.symm
  have hkeep : (inames ++ df.columns).filter
      (fun h => !inames.contains h) = df.columns := by
    rw [List.filter_append, filter_not_contains_self, List.nil_append]
    rw [List.filter_eq_self]
    intro a ha
    simp [hdisj2 a ha]
  have hemp : inames.isEmpty = false := by
    cases inames with
    | nil => exact absurd rfl hinne
    | cons a t => rfl
  unfold csvRead
  rw [hheader, hidx]
  simp only [hemp, Bool.false_eq_true, if_false]
  have hrows : (csvWrite df).body.map (fun r =>
      (alignRow (inames ++ df.columns) inames r,
       alignRow (inames ++ df.columns)
         ((inames ++ df.columns).filter (fun h => !inames.contains h))
         r)) = df.rows := by
    simp only [csvWrite]
    rw [List.map_map]
    have hpt : ∀ r ∈ df.rows,
        ((fun r : List Val =>
          (alignRow (inames ++ df.columns) inames r,
           alignRow (inames ++ df.columns)
             ((inames ++ df.columns).filter (fun h => !inames.contains h))
             r)) ∘ (fun r : List Val × List Val => r.1 ++ r.2)) r = r := by
      intro r hr
      show (alignRow (inames ++ df.columns) inames (r.1 ++ r.2),
        alignRow (inames ++ df.columns)
          ((inames ++ df.columns).filter (fun h => !inames.contains h))
          (r.1 ++ r.2)) = r
      rw [hkeep]
      rw [alignRow_append_left inames df.columns r.1 r.2 hndi
        (hwf r hr).1]
      rw [alignRow_append_right inames df.columns r.1 r.2 hnd
        (hwf r hr).2 (hwf r hr).1 hdisj2]
    rw [List.map_congr_left hpt, List.map_id']
  rw [hkeep] at hrows ⊢
  rw [hrows, ← hsome]

/-- Decoding a readable `.json` file yields its mapping. -/
theorem loadedEntry_json (fname : String) (d : List (String × Val))
    (h1 : ¬ extOf fname = "csv") (h2 : extOf fname = "json") :
    loadedEntry fname (FileContent.jsonData d) = .dict d := by
  unfold loadedEntry loadFile
  rw [if_neg h1, if_pos h2]

/-- Decoding a readable `.csv` file yields its table with recognized
index columns promoted. -/
theorem loadedEntry_csv (fname : String) (cv : Csv)
    (h : extOf fname = "csv") :
    loadedEntry fname (FileContent.csvData cv) = .table (csvRead cv) := by
  unfold loadedEntry loadFile
  rw [if_pos h]

/-- C10: saving a run-produced container (log with `iterations = 1`,
flat parameters, a single variables table, a measures table — index
levels named from the recognized set, in its order) and loading it back
reproduces the container exactly, so `arrange` returns the same result on
the loaded container as on the original — in particular the same table
whenever the original arrangement produces one. -/
theorem save_load_roundtrip_arrange (lg pars : List (String × Val))
    (vt mt2 : DF) (iv im : List String)
    (_hit : lg.lookup "iterations" = some (.vInt 1))
    (hv1 : vt.indexNames = iv.map some)
    (hv2 : iv = iCols.filter (fun c => iv.contains c))
    (hv3 : iv ≠ [])
    (hv4 : vt.columns.Nodup)
    (hv5 : ∀ c ∈ vt.columns, c ∉ iCols)
    (hv6 : ∀ r ∈ vt.rows, r.1.length = iv.length ∧
      r.2.length = vt.columns.length)
    (hm1 : mt2.indexNames = im.map some)
    (hm2 : im = iCols.filter (fun c => im.contains c))
    (hm3 : im ≠ [])
    (hm4 : mt2.columns.Nodup)
    (hm5 : ∀ c ∈ mt2.columns, c ∉ iCols)
    (hm6 : ∀ r ∈ mt2.rows, r.1.length = im.length ∧
      r.2.length = mt2.columns.length) :
    loadFiles (saveEntries (runDD lg pars vt mt2)) = runDD lg pars vt mt2 ∧
    (∀ dataKeys varKeys objTypes measureKeys paramKeys scenarios index,
      arrange (loadFiles (saveEntries (runDD lg pars vt mt2))) dataKeys
        varKeys objTypes measureKeys paramKeys scenarios index =
      arrange (runDD lg pars vt mt2) dataKeys varKeys objTypes
        measureKeys paramKeys scenarios index) ∧
    (∀ dataKeys varKeys objTypes measureKeys paramKeys scenarios index df,
      (arrange (runDD lg pars vt mt2) dataKeys varKeys objTypes
        measureKeys paramKeys scenarios index).1 = .ok (some df) →
      (arrange (loadFiles (saveEntries (runDD lg pars vt mt2))) dataKeys
        varKeys objTypes measureKeys paramKeys scenarios index).1 =
        .ok (some df)) := by
  have hse0 : saveEntries (runDD lg pars vt mt2) =
      [("log.json", FileContent.jsonData lg),
       ("parameters.json", FileContent.jsonData pars),
       ("variables.csv", FileContent.csvData (csvWrite vt)),
       ("measures.csv", FileContent.csvData (csvWrite mt2))] := by
    show [("log" ++ ".json", FileContent.jsonData lg),
       ("parameters" ++ ".json", FileContent.jsonData pars),
       ("variables" ++ ".csv", FileContent.csvData (csvWrite vt)),
       ("measures" ++ ".csv", FileContent.csvData (csvWrite mt2))] = _
    rw [(by decide : ("log" ++ ".json" : String) = "log.json"),
        (by decide : ("parameters" ++ ".json" : String) =
          "parameters.json"),
        (by decide : ("variables" ++ ".csv" : String) = "variables.csv"),
        (by decide : ("measures" ++ ".csv" : String) = "measures.csv")]
  have hsub : ∀ p ∈ [("log.json", FileContent.jsonData lg),
      ("parameters.json", FileContent.jsonData pars),
      ("variables.csv", FileContent.csvData (csvWrite vt)),
      ("measures.csv", FileContent.csvData (csvWrite mt2))],
      hasSub p.1 "variables_" = false ∧
        hasSub p.1 "parameters_" = false := by
    intro p hp
    simp only [List.mem_cons, List.not_mem_nil, or_false] at hp
    rcases hp with h | h | h | h
    · subst h
      exact ⟨(by decide : hasSub "log.json" "variables_" = false),
        (by decide : hasSub "log.json" "parameters_" = false)⟩
    · subst h
      exact ⟨(by decide : hasSub "parameters.json" "variables_" = false),
        (by decide : hasSub "parameters.json" "parameters_" = false)⟩
    · subst h
      exact ⟨(by decide : hasSub "variables.csv" "variables_" = false),
        (by decide : hasSub "variables.csv" "parameters_" = false)⟩
    · subst h
      exact ⟨(by decide : hasSub "measures.csv" "variables_" = false),
        (by decide : hasSub "measures.csv" "parameters_" = false)⟩
  have hnd : (([("log.json", FileContent.jsonData lg),
      ("parameters.json", FileContent.jsonData pars),
      ("variables.csv", FileContent.csvData (csvWrite vt)),
      ("measures.csv", FileContent.csvData (csvWrite mt2))]).map
        (fun p => stripExt p.1)).Nodup := by
    show ([stripExt "log.json", stripExt "parameters.json",
      stripExt "variables.csv", stripExt "measures.csv"]).Nodup
    decide
  have hlf : loadFiles [("log.json", FileContent.jsonData lg),
      ("parameters.json", FileContent.jsonData pars),
      ("variables.csv", FileContent.csvData (csvWrite vt)),
      ("measures.csv", FileContent.csvData (csvWrite mt2))] =
      [("log", .dict lg), ("parameters", .dict pars),
       ("variables", .table (csvRead (csvWrite vt))),
       ("measures", .table (csvRead (csvWrite mt2)))] := by
    unfold loadFiles
    rw [loadFiles_top_aux _ [] hsub hnd (fun p hp => rfl)]
    simp only [List.nil_append, List.map_cons, List.map_nil]
    rw [(by decide : stripExt "log.json" = "log"),
        (by decide : stripExt "parameters.json" = "parameters"),
        (by decide : stripExt "variables.csv" = "variables"),
        (by decide : stripExt "measures.csv" = "measures"),
        loadedEntry_json "log.json" lg (by decide) (by decide),
        loadedEntry_json "parameters.json" pars (by decide) (by decide),
        loadedEntry_csv "variables.csv" (csvWrite vt) (by decide),
        loadedEntry_csv "measures.csv" (csvWrite mt2) (by decide)]
  have h1 : loadFiles (saveEntries (runDD lg pars vt mt2)) =
      runDD lg pars vt mt2 := by
    rw [hse0, hlf,
      csvRead_csvWrite vt iv hv1 hv2 hv3 hv4 hv5 hv6,
      csvRead_csvWrite mt2 im hm1 hm2 hm3 hm4 hm5 hm6]
    rfl
  refine ⟨h1, ?_, ?_⟩
  · intro dataKeys varKeys objTypes measureKeys paramKeys scenarios index
    rw [h1]
  · intro dataKeys varKeys objTypes measureKeys paramKeys scenarios index
      df hdf
    rw [h1]
    exact hdf

/-- C10 witness: the sample run container (1 iteration, flat parameters,
`tableA` variables indexed by `(obj_id, t)`, measures indexed by
`run_id`) round-trips exactly through save and load, and arrangement of
the reloaded container coincides with arrangement of the original. -/
theorem save_load_roundtrip_arrange_app :
    loadFiles (saveEntries (runDD
      [("name", .vStr "exp"), ("iterations", .vInt 1)]
      [("a", .vInt 1)] tableA measuresSample)) =
      runDD [("name", .vStr "exp"), ("iterations", .vInt 1)]
        [("a", .vInt 1)] tableA measuresSample ∧
    (∀ dataKeys varKeys objTypes measureKeys paramKeys scenarios index,
      arrange (loadFiles (saveEntries (runDD
        [("name", .vStr "exp"), ("iterations", .vInt 1)]
        [("a", .vInt 1)] tableA measuresSample))) dataKeys
        varKeys objTypes measureKeys paramKeys scenarios index =
      arrange (runDD [("name", .vStr "exp"), ("iterations", .vInt 1)]
        [("a", .vInt 1)] tableA measuresSample) dataKeys varKeys objTypes
        measureKeys paramKeys scenarios index) ∧
    (∀ dataKeys varKeys objTypes measureKeys paramKeys scenarios index df,
      (arrange (runDD [("name", .vStr "exp"), ("iterations", .vInt 1)]
        [("a", .vInt 1)] tableA measuresSample) dataKeys varKeys objTypes
        measureKeys paramKeys scenarios index).1 = .ok (some df) →
      (arrange (loadFiles (saveEntries (runDD
        [("name", .vStr "exp"), ("iterations", .vInt 1)]
        [("a", .vInt 1)] tableA measuresSample))) dataKeys
        varKeys objTypes measureKeys paramKeys scenarios index).1 =
        .ok (some df)) := by
  exact save_load_roundtrip_arrange
    [("name", .vStr "exp"), ("iterations", .vInt 1)] [("a", .vInt 1)]
    tableA measuresSample ["obj_id", "t"] ["run_id"]
    rfl rfl (by decide) (by decide) (by decide) (by decide) (by decide)
    rfl (by decide) (by decide) (by decide) (by decide) (by decide)
